import Mathlib

/-!
# LED strip controller (`src/main.cpp`): command interpreter, framer and rainbow scheduler

A shallow embedding of the sketch.  The target is the 8-bit AVR Arduino core that
`SoftwareSerial.h` belongs to: `int` is 16 bits wide, `long` and `unsigned long` are 32 bits
wide, and the C library is avr-libc.

* An Arduino `String` is a `List Char`.  Text on the wire is ASCII without NUL bytes, so the
  length of a `String` and the length of its C string agree.
* The two `Stream`s are the `Channel` values; what a stream has printed is a character list in
  the world state (`serialOut`, `bluetoothOut`), and the bytes a stream has available are an
  argument of `pollStream`.
* `handleCommand` is written in two parts: `dispatch` is its chain of `if` and `else if`
  (lines 121 to 156), which yields the response and the new state.
* `pollStream` is `pollStreamWith` at the line handler `handleCommand`.
* `millis()` is the argument `now` of `updateRainbow`.
* The NeoPixel strip is a record of the requested pixel colours and brightness, together with
  the list of frames pushed by `show()`.
* `history` is a ghost field: it records, oldest entry first, every call of `startRainbow`
  and every rainbow frame that `updateRainbow` pushes (with the time and the phase it was
  drawn with).  No function reads it.
-/

namespace PoliceLed

/-! ## Library functions used by the sketch -/

/-- `isspace` of the C locale: space, and the control characters `\t \n \v \f \r`. -/
def isspace (c : Char) : Bool := c.toNat == 32 || (9 ≤ c.toNat && c.toNat ≤ 13)

/-- `isdigit`. -/
def isdigit (c : Char) : Bool := 48 ≤ c.toNat && c.toNat ≤ 57

/-- `tolower` of the C locale. -/
def tolower (c : Char) : Char :=
  if 65 ≤ c.toNat ∧ c.toNat ≤ 90 then Char.ofNat (c.toNat + 32) else c

/-- `String::trim`: strips `isspace` characters from both ends. -/
def trim (s : List Char) : List Char := ((s.dropWhile isspace).reverse.dropWhile isspace).reverse

/-- `String::equalsIgnoreCase`: equal lengths and equal characters up to `tolower`. -/
def equalsIgnoreCase (s t : List Char) : Bool :=
  s.length == t.length && (s.zip t).all (fun p => tolower p.1 == tolower p.2)

/-- `String::startsWith`: the first `t.length` characters of `s` are `t`. -/
def startsWith (s t : List Char) : Bool := t.length ≤ s.length && s.take t.length == t

/-- `String::substring(from)`. -/
def substring (s : List Char) (start : Nat) : List Char := s.drop start

/-- The Arduino `constrain(amt, low, high)` preprocessor definition. -/
def constrain (amt low high : Int) : Int :=
  if amt < low then low else if amt > high then high else amt

/-- A two's complement reading of the low `w` bits of `x`. -/
def toSigned (w : Nat) (x : Int) : Int :=
  if x % 2 ^ w < 2 ^ (w - 1) then x % 2 ^ w else x % 2 ^ w - 2 ^ w

/-- `static_cast<uint8_t>`. -/
def toUint8 (x : Int) : Nat := (x % 256).toNat

/-- The digit loop of avr-libc `atol`: decimal digits are accumulated in a 32-bit register
without an overflow check; the scan stops at the first character that is not a digit.
Returns the register, the number of digits read and the unread input. -/
def scanDigits : Nat → Nat → List Char → Nat × Nat × List Char
  | acc, k, [] => (acc, k, [])
  | acc, k, c :: cs =>
    if isdigit c then scanDigits ((acc * 10 + (c.toNat - 48)) % 2 ^ 32) (k + 1) cs
    else (acc, k, c :: cs)

/-- avr-libc `atol`: skips white space, reads an optional sign and the decimal digits, and
returns the 32-bit register as a `long`. -/
def atol (s : List Char) : Int :=
  match s.dropWhile isspace with
  | '-' :: r => toSigned 32 (-((scanDigits 0 0 r).1 : Int))
  | '+' :: r => toSigned 32 ((scanDigits 0 0 r).1 : Int)
  | r => toSigned 32 ((scanDigits 0 0 r).1 : Int)

/-- `String::toInt`. -/
def toInt (s : List Char) : Int := atol s

/-- The digit loop of the `%d` conversion of avr-libc `vfscanf` (`conv_int`): as `scanDigits`,
but at most `width` characters are read. -/
def scanField : Nat → Nat → Nat → List Char → Nat × Nat × List Char
  | 0, acc, k, s => (acc, k, s)
  | _ + 1, acc, k, [] => (acc, k, [])
  | width + 1, acc, k, c :: cs =>
    if isdigit c then scanField width ((acc * 10 + (c.toNat - 48)) % 2 ^ 32) (k + 1) cs
    else (acc, k, c :: cs)

/-- The digits of the `%d` conversion, after the sign: at least one digit is required; the
32-bit register, negated after a minus sign, is stored into a 16-bit `int`.  `none` when no
digit follows. -/
def convDigits (width : Nat) (neg : Bool) (r : List Char) : Option (Int × List Char) :=
  match scanField width 0 0 r with
  | (acc, k, rest) =>
    if k = 0 then none
    else some (toSigned 16 (if neg then -(acc : Int) else (acc : Int)), rest)

/-- The `%d` conversion of avr-libc `vfscanf`: white space is skipped, an optional sign is
read, then the digits.  The field is at most 255 characters wide, the sign included (the
default of avr-libc, whose width counter is one byte). -/
def convInt (s : List Char) : Option (Int × List Char) :=
  match s.dropWhile isspace with
  | '-' :: r => convDigits 254 true r
  | '+' :: r => convDigits 254 false r
  | r => convDigits 255 false r

/-- The ordinary characters of a `scanf` format: each must equal the next input character. -/
def matchLiteral : List Char → List Char → Option (List Char)
  | [], s => some s
  | _ :: _, [] => none
  | f :: fs, c :: cs => if c = f then matchLiteral fs cs else none

/-- The call `sscanf(s, "COLOR %d %d %d", &r, &g, &b)` with `r`, `g`, `b` initially zero:
returns the number of conversions assigned and the three variables.  A return value of `EOF`
is represented by the count `0`; the caller only compares the count with `3`. -/
def sscanfColor (s : List Char) : Nat × Int × Int × Int :=
  match matchLiteral ['C', 'O', 'L', 'O', 'R'] s with
  | none => (0, 0, 0, 0)
  | some s0 =>
    match convInt (s0.dropWhile isspace) with
    | none => (0, 0, 0, 0)
    | some (r, s1) =>
      match convInt (s1.dropWhile isspace) with
      | none => (1, r, 0, 0)
      | some (g, s2) =>
        match convInt (s2.dropWhile isspace) with
        | none => (2, r, g, 0)
        | some (b, _) => (3, r, g, b)

/-- The value of a character as a digit of `strtoul` (letters count from ten), if any. -/
def digitOf (c : Char) : Option Nat :=
  if 48 ≤ c.toNat ∧ c.toNat ≤ 57 then some (c.toNat - 48)
  else if 65 ≤ c.toNat ∧ c.toNat ≤ 90 then some (c.toNat - 55)
  else if 97 ≤ c.toNat ∧ c.toNat ≤ 122 then some (c.toNat - 87)
  else none

/-- The digit loop of `strtoul` in base 16: stops at the first character that is not a
hexadecimal digit.  The accumulator is unbounded here; `strtoul16` saturates it. -/
def scanHex : Nat → List Char → Nat
  | acc, [] => acc
  | acc, c :: cs =>
    match digitOf c with
    | some d => if d < 16 then scanHex (acc * 16 + d) cs else acc
    | none => acc

/-- The part of `strtoul(s, nullptr, 16)` after the sign: an optional `0x`, the digits; out
of range values give `ULONG_MAX`, a minus sign negates modulo `2 ^ 32`. -/
def strtoulDigits (neg : Bool) (r : List Char) : Nat :=
  let digits := match r with
    | '0' :: 'x' :: t => t
    | '0' :: 'X' :: t => t
    | t => t
  let acc := scanHex 0 digits
  if 2 ^ 32 ≤ acc then 2 ^ 32 - 1
  else if neg then (2 ^ 32 - acc) % 2 ^ 32 else acc

/-- `strtoul(s, nullptr, 16)`: white space is skipped, an optional sign is read, then the
digits. -/
def strtoul16 (s : List Char) : Nat :=
  match s.dropWhile isspace with
  | '-' :: r => strtoulDigits true r
  | '+' :: r => strtoulDigits false r
  | r => strtoulDigits false r

/-! ## State -/

/-- `enum class AnimationMode`. -/
inductive AnimationMode
  | Static
  | Rainbow
deriving DecidableEq, Repr

/-- The two serial links: `Serial` (wired, also the diagnostic channel) and `bluetooth`. -/
inductive Channel
  | serial
  | bluetooth
deriving DecidableEq, Repr

/-- `LED_COUNT`. -/
def LED_COUNT : Nat := 30

/-- `RAINBOW_INTERVAL_MS`. -/
def RAINBOW_INTERVAL_MS : Nat := 40

/-- The `Adafruit_NeoPixel` object: requested colours (packed `0xRRGGBB`), brightness, and
every frame pushed by `show()`, oldest first. -/
structure Strip where
  pixels : List Nat
  brightness : Nat
  shown : List (List Nat × Nat)
deriving DecidableEq, Repr

/-- Ghost record of the rainbow animation. -/
inductive Event
  | restart
  | frame (now phase : Nat)
deriving DecidableEq, Repr

/-- The globals of the sketch, the strip, and the output of the two streams. -/
structure World where
  currentMode : AnimationMode
  staticColor : Nat × Nat × Nat
  currentBrightness : Nat
  rainbowOffset : Nat
  lastRainbowUpdate : Nat
  commandBuffer : List Char
  serialCommandBuffer : List Char
  strip : Strip
  serialOut : List Char
  bluetoothOut : List Char
  history : List Event
deriving DecidableEq, Repr

/-- The globals as initialised at their definitions, before `setup` runs. -/
def World.initial : World where
  currentMode := AnimationMode.Static
  staticColor := (0, 0, 0)
  currentBrightness := 128
  rainbowOffset := 0
  lastRainbowUpdate := 0
  commandBuffer := []
  serialCommandBuffer := []
  strip := ⟨List.replicate LED_COUNT 0, 255, []⟩
  serialOut := []
  bluetoothOut := []
  history := []

/-- The display state of the specification: mode, static colour, brightness, rainbow phase
and last-frame timestamp. -/
def World.display (w : World) : AnimationMode × (Nat × Nat × Nat) × Nat × Nat × Nat :=
  (w.currentMode, w.staticColor, w.currentBrightness, w.rainbowOffset, w.lastRainbowUpdate)

/-! ## The strip and the streams -/

/-- `strip.numPixels()`. -/
def Strip.numPixels (_ : Strip) : Nat := LED_COUNT

/-- `strip.Color(r, g, b)` with its `uint8_t` parameters. -/
def Color (r g b : Int) : Nat := toUint8 r * 65536 + toUint8 g * 256 + toUint8 b

/-- `strip.setPixelColor(i, c)`: ignored when `i` is out of range. -/
def Strip.setPixelColor (i c : Nat) (s : Strip) : Strip :=
  if i < s.numPixels then { s with pixels := s.pixels.set i c } else s

/-- `strip.setBrightness(b)`. -/
def Strip.setBrightness (b : Nat) (s : Strip) : Strip := { s with brightness := b }

/-- `strip.show()`: pushes the current colours and brightness as one frame. -/
def Strip.show (s : Strip) : Strip := { s with shown := s.shown ++ [(s.pixels, s.brightness)] }

/-- `stream.print(text)`. -/
def print (ch : Channel) (text : List Char) (w : World) : World :=
  match ch with
  | Channel.serial => { w with serialOut := w.serialOut ++ text }
  | Channel.bluetooth => { w with bluetoothOut := w.bluetoothOut ++ text }

/-- `stream.println(text)`: the text followed by `\r\n`. -/
def println (ch : Channel) (text : List Char) (w : World) : World :=
  print ch (text ++ ['\r', '\n']) w

/-- What a stream has printed so far. -/
def World.out (w : World) : Channel → List Char
  | Channel.serial => w.serialOut
  | Channel.bluetooth => w.bluetoothOut

/-! ## The sketch -/

/-- `wheel`. -/
def wheel (position : Nat) : Nat :=
  let position := (255 - (position : Int)) % 256
  if position < 85 then Color (255 - position * 3) 0 (position * 3)
  else if position < 170 then
    let position := (position - 85) % 256
    Color 0 (position * 3) (255 - position * 3)
  else
    let position := (position - 170) % 256
    Color (position * 3) (255 - position * 3) 0

/-- `colorFromHex`: at most six characters are copied into the buffer for `strtoul`. -/
def colorFromHex (hex : List Char) : Nat := strtoul16 (hex.take 6)

/-- `applyStaticColor`. -/
def applyStaticColor (w : World) : World :=
  let strip := (List.range w.strip.numPixels).foldl
    (fun s i => s.setPixelColor i
      (Color w.staticColor.1 w.staticColor.2.1 w.staticColor.2.2)) w.strip
  { w with strip := (strip.setBrightness w.currentBrightness).show }

/-- `setStaticColor`. -/
def setStaticColor (red green blue : Nat) (w : World) : World :=
  applyStaticColor { w with staticColor := (red, green, blue), currentMode := AnimationMode.Static }

/-- `startRainbow`. -/
def startRainbow (w : World) : World :=
  { w with currentMode := AnimationMode.Rainbow, lastRainbowUpdate := 0,
           history := w.history ++ [Event.restart] }

/-- The `unsigned long` difference `a - b`. -/
def usub32 (a b : Nat) : Nat := (a % 2 ^ 32 + 2 ^ 32 - b % 2 ^ 32) % 2 ^ 32

/-- `updateRainbow`, with `now` the value returned by `millis()`. -/
def updateRainbow (now : Nat) (w : World) : World :=
  if usub32 now w.lastRainbowUpdate < RAINBOW_INTERVAL_MS then w
  else
    let strip := (List.range w.strip.numPixels).foldl
      (fun s i => s.setPixelColor i
        (wheel (((i * 256 % 65536 / s.numPixels + w.rainbowOffset) % 65536) % 256))) w.strip
    { w with strip := (strip.setBrightness w.currentBrightness).show,
             rainbowOffset := (w.rainbowOffset + 1) % 256,
             lastRainbowUpdate := now,
             history := w.history ++ [Event.frame now w.rainbowOffset] }

/-- Lines 121 to 156 of `handleCommand`: the dispatch on the trimmed command.  Returns the
response and the world after the command has been applied. -/
def dispatch (command : List Char) (w : World) : List Char × World :=
  if equalsIgnoreCase command ['O', 'F', 'F'] then
    (['O', 'K'], setStaticColor 0 0 0 w)
  else if equalsIgnoreCase command ['R', 'A', 'I', 'N', 'B', 'O', 'W'] then
    (['O', 'K'], startRainbow w)
  else if startsWith command ['#'] && command.length == 7 then
    let color := colorFromHex (substring command 1)
    let r := color / 65536 % 256
    let g := color / 256 % 256
    let b := color % 256
    (['O', 'K'], setStaticColor r g b w)
  else if startsWith command ['C', 'O', 'L', 'O', 'R', ' '] then
    match sscanfColor command with
    | (3, r, g, b) =>
      let r := constrain r 0 255
      let g := constrain g 0 255
      let b := constrain b 0 255
      (['O', 'K'], setStaticColor (toUint8 r) (toUint8 g) (toUint8 b) w)
    | _ => (['E', 'R', 'R'], w)
  else if startsWith command ['B', 'R', 'I', 'G', 'H', 'T', ' '] then
    let level := toInt (substring command 7)
    let level := constrain level 0 255
    let w := { w with currentBrightness := toUint8 level }
    (['O', 'K'], if w.currentMode = AnimationMode.Static then applyStaticColor w else w)
  else
    (['E', 'R', 'R'],
      println Channel.serial
        ['U', 'n', 'k', 'n', 'o', 'w', 'n', ' ', 'c', 'o', 'm', 'm', 'a', 'n', 'd', '.'] w)

/-- `handleCommand`; `responseStream` is `none` for `nullptr`. -/
def handleCommand (rawCommand : List Char) (responseStream : Option Channel) (w : World) :
    World :=
  if rawCommand.isEmpty then w
  else
    let command := trim rawCommand
    if command.length = 0 then w
    else
      let w := print Channel.serial
        ['R', 'e', 'c', 'e', 'i', 'v', 'e', 'd', ' ', 'c', 'o', 'm', 'm', 'a', 'n', 'd', ':', ' '] w
      let w := println Channel.serial command w
      let (response, w) := dispatch command w
      match responseStream with
      | some stream => println stream response w
      | none => w

/-- The loop of `pollStream` over the bytes the stream has available, for an arbitrary line
handler: returns the buffer and the state after the last byte. -/
def pollStreamWith {σ : Type} (handle : List Char → σ → σ) :
    List Char → List Char → σ → List Char × σ
  | [], buffer, w => (buffer, w)
  | incoming :: rest, buffer, w =>
    if incoming = '\n' then pollStreamWith handle rest [] (handle buffer w)
    else if incoming ≠ '\r' then
      if buffer.length < 48 then pollStreamWith handle rest (buffer ++ [incoming]) w
      else pollStreamWith handle rest buffer w
    else pollStreamWith handle rest buffer w

/-- `pollStream`: `available` are the bytes `stream.read()` delivers during the call. -/
def pollStream (available : List Char) (buffer : List Char) (responseStream : Option Channel)
    (w : World) : List Char × World :=
  pollStreamWith (fun line => handleCommand line responseStream) available buffer w

/-- The scheduler tick at the end of `loop`. -/
def tick (now : Nat) (w : World) : World :=
  if w.currentMode = AnimationMode.Rainbow then updateRainbow now w else w

/-- One iteration of `loop`: `bt` and `usb` are the bytes available on the Bluetooth and on
the wired link, `now` is the value of `millis()`. -/
def loop (bt usb : List Char) (now : Nat) (w : World) : World :=
  let (buffer, w) := pollStream bt w.commandBuffer (some Channel.bluetooth) w
  let w := { w with commandBuffer := buffer }
  let (buffer, w) := pollStream usb w.serialCommandBuffer (some Channel.serial) w
  let w := { w with serialCommandBuffer := buffer }
  tick now w

/-- `setup`. -/
def setup (w : World) : World :=
  let strip := { w.strip with pixels := List.replicate LED_COUNT 0 }
  let w := { w with strip := (strip.setBrightness w.currentBrightness).show }
  let w := println Channel.serial
    ("Bluetooth LED strip controller ready.".toList) w
  println Channel.bluetooth ['R', 'E', 'A', 'D', 'Y'] w

/-! ## Vocabulary of the statements -/

/-- The decimal digits of `n`, most significant first; `0` is the single digit `0`. -/
def decimalDigits (n : Nat) : List Nat := if n = 0 then [0] else (Nat.digits 10 n).reverse

/-- The natural number `n` written in decimal. -/
def decimal (n : Nat) : List Char := (decimalDigits n).map Nat.digitChar

/-- The integer `n` written in decimal: a minus sign when negative, and an optional plus sign
otherwise. -/
def showInt (plus : Bool) (n : Int) : List Char :=
  if n < 0 then '-' :: decimal n.natAbs
  else (if plus then ['+'] else []) ++ decimal n.toNat

/-- The clamp of the specification. -/
def clamp (n lo hi : Int) : Int := max lo (min n hi)

/-- The world after the diagnostic echo of lines 118 and 119. -/
def received (command : List Char) (w : World) : World :=
  println Channel.serial command (print Channel.serial
    ['R', 'e', 'c', 'e', 'i', 'v', 'e', 'd', ' ', 'c', 'o', 'm', 'm', 'a', 'n', 'd', ':', ' '] w)

/-- Lines 158 to 160: the response goes to the response stream, if there is one. -/
def respond (rs : Option Channel) (p : List Char × World) : World :=
  match rs with
  | some stream => println stream p.1 p.2
  | none => p.2

/-- The note `handleCommand` prints on the wired link for an unknown command. -/
def unknownNote (unknown : Bool) : List Char :=
  if unknown then
    ['U', 'n', 'k', 'n', 'o', 'w', 'n', ' ', 'c', 'o', 'm', 'm', 'a', 'n', 'd', '.', '\r', '\n']
  else []

/-- The diagnostic text a handled command puts on a channel before the status line: the echo
of the command and, for a command reported as unknown, the note; both only on the wired
link. -/
def diagnostics (ch : Channel) (command : List Char) (unknown : Bool) : List Char :=
  match ch with
  | Channel.serial =>
    ['R', 'e', 'c', 'e', 'i', 'v', 'e', 'd', ' ', 'c', 'o', 'm', 'm', 'a', 'n', 'd', ':', ' ']
      ++ command ++ ['\r', '\n'] ++ unknownNote unknown
  | Channel.bluetooth => []

/-- A hexadecimal digit, in either letter case. -/
def isxdigit (c : Char) : Bool :=
  (48 ≤ c.toNat && c.toNat ≤ 57) || (65 ≤ c.toNat && c.toNat ≤ 70)
    || (97 ≤ c.toNat && c.toNat ≤ 102)

/-- The value of a hexadecimal digit. -/
def hexValue (c : Char) : Nat :=
  if c.toNat ≤ 57 then c.toNat - 48 else if c.toNat ≤ 70 then c.toNat - 55 else c.toNat - 87

/-- The byte written by two hexadecimal digits. -/
def hexByte (hi lo : Char) : Nat := 16 * hexValue hi + hexValue lo

/-- A number of scheduler ticks, at the given values of `millis()`. -/
def ticks (times : List Nat) (w : World) : World := times.foldl (fun w now => tick now w) w

/-- The lines of a stream's output: the text between the `\n` characters.  A line printed by
`println` carries its `\r` at the end. -/
def linesOf : List Char → List (List Char)
  | [] => [[]]
  | c :: cs =>
    if c = '\n' then [] :: linesOf cs
    else
      match linesOf cs with
      | [] => [[c]]
      | l :: ls => (c :: l) :: ls

/-- One step of a run of the controller: a command line handled for a response stream, or a
scheduler tick at a value of `millis()`. -/
inductive Step
  | command (line : List Char) (origin : Option Channel)
  | tick (now : Nat)

/-- The effect of one step. -/
def step : Step → World → World
  | Step.command line origin, w => handleCommand line origin w
  | Step.tick now, w => tick now w

/-- A run: the steps in order. -/
def run (steps : List Step) (w : World) : World := steps.foldl (fun w s => step s w) w

/-- The times of the scheduler ticks of a run, in order. -/
def tickTimes (steps : List Step) : List Nat :=
  steps.filterMap (fun s => match s with
    | Step.tick now => some now
    | Step.command _ _ => none)

/-- The rendered rainbow frames of a history, in order: time and phase. -/
def frames (history : List Event) : List (Nat × Nat) :=
  history.filterMap (fun e => match e with
    | Event.frame now phase => some (now, phase)
    | Event.restart => none)

/-- Two rainbow frames with nothing recorded between them are a full interval apart. -/
def Spaced : Event → Event → Prop
  | Event.frame t1 _, Event.frame t2 _ => t1 + RAINBOW_INTERVAL_MS ≤ t2
  | _, _ => True

/-- The phase of the later frame is one more than the phase of the earlier one, modulo 256. -/
def NextPhase (a b : Nat × Nat) : Prop := b.2 = (a.2 + 1) % 256

/-- The spacing C10 states of any two consecutive rendered rainbow frames: the later one is
at least a full interval after the earlier one. -/
def FullInterval (a b : Nat × Nat) : Prop := a.1 + RAINBOW_INTERVAL_MS ≤ b.1

/-- The invariant of a run: `lo` is a time no later than any tick still to come. -/
structure RunInv (w : World) (lo : Nat) : Prop where
  spaced : List.Chain' Spaced w.history
  phases : List.Chain' NextPhase (frames w.history)
  last : ∀ t p, w.history.getLast? = some (Event.frame t p) → w.lastRainbowUpdate = t
  offset : ∀ f ∈ (frames w.history).getLast?, w.rainbowOffset = (f.2 + 1) % 256
  le : w.lastRainbowUpdate ≤ lo

/-- The line `BRIGHT n`. -/
def brightLine (plus : Bool) (n : Int) : List Char :=
  ['B', 'R', 'I', 'G', 'H', 'T', ' '] ++ showInt plus n

/-- The line `COLOR r g b`. -/
def colorLine (pr pg pb : Bool) (r g b : Int) : List Char :=
  ['C', 'O', 'L', 'O', 'R', ' '] ++ showInt pr r ++ [' '] ++ showInt pg g ++ [' ']
    ++ showInt pb b

/-- The world after the sequence `OFF`, scheduler ticks, `RAINBOW`, scheduler ticks, `OFF`. -/
def offRainbowOff (rs1 rs2 rs3 : Option Channel) (first second : List Nat) (w : World) :
    World :=
  handleCommand ['O', 'F', 'F'] rs3
    (ticks second (handleCommand ['R', 'A', 'I', 'N', 'B', 'O', 'W'] rs2
      (ticks first (handleCommand ['O', 'F', 'F'] rs1 w))))

/-- The three channels of a packed colour `0xRRGGBB`. -/
def channels (c : Nat) : Nat × Nat × Nat := (c / 65536 % 256, c / 256 % 256, c % 256)

/-- The segment `wheel` takes at an inverted position `p`, as its two tests decide it. -/
def wheelSegment (p : Nat) : Nat := if p < 85 then 0 else if p < 170 then 1 else 2

/-- The value of the variable `position` of `wheel` when the colour is built: the offset of
the inverted position `p` within its segment. -/
def wheelOffset (p : Nat) : Nat := if p < 85 then p else if p < 170 then p - 85 else p - 170

/-- The inverted positions, out of `0..255`, that `wheel` sends to a segment. -/
def segmentMembers (segment : Nat) : List Nat :=
  (List.range 256).filter (fun p => wheelSegment p == segment)

/-- The number written in base 16 by the hexadecimal digits at the start of a text, up to
the first character that is not a hexadecimal digit; zero when there is none. -/
def hexRunValue (cs : List Char) : Nat :=
  ((cs.takeWhile isxdigit).map hexValue).foldl (fun a d => a * 16 + d) 0

/-! ## Lemmas: decimal numerals -/

theorem digitChar_isdigit {d : Nat} (h : d < 10) :
    isdigit (Nat.digitChar d) = true ∧ (Nat.digitChar d).toNat - 48 = d := by
  interval_cases d <;> exact ⟨by decide, by decide⟩

theorem foldl_mod (M : Nat) (ds : List Nat) (a : Nat) :
    List.foldl (fun a d => a * 10 + d) (a % M) ds % M
      = List.foldl (fun a d => a * 10 + d) a ds % M := by
  induction ds generalizing a with
  | nil => simp
  | cons d ds ih =>
    simp only [List.foldl_cons]
    rw [← ih (a % M * 10 + d), ← ih (a * 10 + d)]
    congr 2
    simp [Nat.add_mod, Nat.mul_mod]

theorem scanDigits_digits (ds : List Nat) (hds : ∀ d ∈ ds, d < 10) (rest : List Char)
    (hrest : ∀ c ∈ rest.head?, isdigit c = false) (acc k : Nat) (hacc : acc < 2 ^ 32) :
    scanDigits acc k (ds.map Nat.digitChar ++ rest)
      = (List.foldl (fun a d => a * 10 + d) acc ds % 2 ^ 32, k + ds.length, rest) := by
  induction ds generalizing acc k with
  | nil =>
    cases rest with
    | nil => simp [scanDigits]; exact (Nat.mod_eq_of_lt hacc).symm
    | cons c cs =>
      have : isdigit c = false := hrest c (by simp)
      simp [scanDigits, this]; exact (Nat.mod_eq_of_lt hacc).symm
  | cons d ds ih =>
    have hd := digitChar_isdigit (hds d (by simp))
    simp only [List.map_cons, List.cons_append, List.foldl_cons, List.length_cons]
    rw [scanDigits]
    simp only [hd.1, hd.2, if_true]
    rw [ih (fun x hx => hds x (by simp [hx])) _ _ (Nat.mod_lt _ (by norm_num)), foldl_mod]
    congr 2
    omega

theorem foldl_digits (n : Nat) :
    List.foldl (fun a d => a * 10 + d) 0 (Nat.digits 10 n).reverse = n := by
  rw [List.foldl_reverse]
  conv_rhs => rw [← Nat.ofDigits_digits 10 n]
  generalize Nat.digits 10 n = L
  induction L with
  | nil => simp
  | cons d L ih => simp [Nat.ofDigits_cons, ih]; ring

theorem decimalDigits_lt (n : Nat) : ∀ d ∈ decimalDigits n, d < 10 := by
  intro d hd
  unfold decimalDigits at hd
  split at hd
  · simp at hd; omega
  · exact Nat.digits_lt_base (by norm_num) (List.mem_reverse.mp hd)

theorem foldl_decimalDigits (n : Nat) :
    List.foldl (fun a d => a * 10 + d) 0 (decimalDigits n) = n := by
  unfold decimalDigits
  split
  · simp; omega
  · exact foldl_digits n

theorem decimalDigits_ne_nil (n : Nat) : decimalDigits n ≠ [] := by
  unfold decimalDigits
  split
  · simp
  · rename_i h
    simp [Nat.digits_eq_nil_iff_eq_zero, h]

theorem isdigit_facts {c : Char} (h : isdigit c = true) :
    isspace c = false ∧ c ≠ '-' ∧ c ≠ '+' := by
  refine ⟨?_, ?_, ?_⟩
  · simp only [isdigit, isspace, Bool.and_eq_true, decide_eq_true_eq, Bool.or_eq_false_iff,
      beq_eq_false_iff_ne, Bool.and_eq_false_iff, decide_eq_false_iff_not] at h ⊢
    omega
  · rintro rfl; revert h; decide
  · rintro rfl; revert h; decide

theorem decimal_cons (n : Nat) : ∃ c cs, decimal n = c :: cs ∧ isdigit c = true := by
  unfold decimal
  have h1 := decimalDigits_ne_nil n
  have h2 := decimalDigits_lt n
  cases h : decimalDigits n with
  | nil => exact absurd h h1
  | cons d ds =>
    rw [h] at h2
    exact ⟨_, _, rfl, (digitChar_isdigit (h2 d (by simp))).1⟩

theorem scanDigits_decimal (n : Nat) (rest : List Char)
    (hrest : ∀ c ∈ rest.head?, isdigit c = false) :
    scanDigits 0 0 (decimal n ++ rest) = (n % 2 ^ 32, (decimalDigits n).length, rest) := by
  unfold decimal
  rw [scanDigits_digits _ (decimalDigits_lt n) rest hrest 0 0 (by norm_num),
    foldl_decimalDigits]
  simp

theorem atol_showInt (plus : Bool) (n : Int) : atol (showInt plus n) = toSigned 32 n := by
  unfold showInt
  split
  · rename_i hn
    have h := scanDigits_decimal n.natAbs [] (by simp)
    simp only [List.append_nil] at h
    have : atol ('-' :: decimal n.natAbs) = toSigned 32 (-((scanDigits 0 0 (decimal n.natAbs)).1 : Int)) := by
      simp [atol, List.dropWhile, isspace]
    rw [this, h]
    have habs : |n| = -n := abs_of_neg hn
    simp only [toSigned]
    push_cast
    rw [habs]
    split <;> split <;> omega
  · rename_i hn
    obtain ⟨c, cs, hc, hd⟩ := decimal_cons n.toNat
    obtain ⟨h1, h2, h3⟩ := isdigit_facts hd
    have h := scanDigits_decimal n.toNat [] (by simp)
    simp only [List.append_nil] at h
    have hcast : ((n.toNat : Nat) : Int) = n := by omega
    have : atol ((if plus = true then ['+'] else []) ++ decimal n.toNat)
        = toSigned 32 ((scanDigits 0 0 (decimal n.toNat)).1 : Int) := by
      cases plus
      · simp only [Bool.false_eq_true, if_false, List.nil_append, atol, hc, List.dropWhile, h1]
        split
        · rename_i heq; simp at heq; exact absurd heq.1 h2
        · rename_i heq; simp at heq; exact absurd heq.1 h3
        · rfl
      · simp [atol, List.dropWhile, isspace]
    rw [this, h]
    simp only [toSigned]
    push_cast
    rw [hcast]
    norm_num

/-! ## Lemmas: the interpreter -/

theorem dropWhile_head_false {p : Char → Bool} (s : List Char)
    (h : ∀ c ∈ s.head?, p c = false) : s.dropWhile p = s := by
  cases s with
  | nil => rfl
  | cons c cs => simp [List.dropWhile, h c (by simp)]

theorem trim_eq_self (s : List Char) (h1 : ∀ c ∈ s.head?, isspace c = false)
    (h2 : ∀ c ∈ s.getLast?, isspace c = false) : trim s = s := by
  unfold trim
  rw [dropWhile_head_false s h1, dropWhile_head_false s.reverse (by simpa using h2)]
  simp

theorem trim_append (a b : List Char) (ha : ∀ c ∈ a.head?, isspace c = false) (ha0 : a ≠ [])
    (hb : ∀ c ∈ b, isspace c = false) (hb0 : b ≠ []) : trim (a ++ b) = a ++ b := by
  apply trim_eq_self
  · cases a with
    | nil => exact absurd rfl ha0
    | cons c cs => simpa using ha
  · intro c hc
    rw [List.getLast?_append_of_ne_nil _ hb0] at hc
    exact hb c (List.mem_of_mem_getLast? hc)

theorem handleCommand_eq (raw : List Char) (rs : Option Channel) (w : World)
    (h : trim raw ≠ []) :
    handleCommand raw rs w = respond rs (dispatch (trim raw) (received (trim raw) w)) := by
  have h0 : raw ≠ [] := by
    rintro rfl
    exact h rfl
  unfold handleCommand
  have h1 : raw.isEmpty = false := by
    cases raw with
    | nil => exact absurd rfl h0
    | cons c cs => rfl
  have h2 : ¬ (trim raw).length = 0 := by
    simpa [List.length_eq_zero] using h
  simp only [h1, Bool.false_eq_true, if_false, h2, received, respond]

theorem dispatch_bright (x : List Char) (hx : x ≠ []) (w : World) :
    dispatch (['B', 'R', 'I', 'G', 'H', 'T', ' '] ++ x) w =
      (['O', 'K'],
        if w.currentMode = AnimationMode.Static then
          applyStaticColor { w with currentBrightness := toUint8 (constrain (toInt x) 0 255) }
        else { w with currentBrightness := toUint8 (constrain (toInt x) 0 255) }) := by
  obtain ⟨c, cs, rfl⟩ := List.exists_cons_of_ne_nil hx
  simp [dispatch, equalsIgnoreCase, startsWith, substring, tolower]

theorem println_out_same (ch : Channel) (t : List Char) (w : World) :
    (println ch t w).out ch = w.out ch ++ t ++ ['\r', '\n'] := by
  cases ch <;> simp [println, print, World.out]

theorem println_display (ch : Channel) (t : List Char) (w : World) :
    (println ch t w).display = w.display := by
  cases ch <;> rfl

theorem received_out (ch : Channel) (cmd : List Char) (w : World) :
    (received cmd w).out ch = w.out ch ++ diagnostics ch cmd false := by
  cases ch <;> simp [received, println, print, World.out, diagnostics, unknownNote]

theorem received_display (cmd : List Char) (w : World) :
    (received cmd w).display = w.display := rfl

theorem applyStaticColor_display (w : World) : (applyStaticColor w).display = w.display := by
  simp only [applyStaticColor, World.display]

theorem applyStaticColor_out (w : World) (ch : Channel) :
    (applyStaticColor w).out ch = w.out ch := by
  cases ch <;> simp only [applyStaticColor, World.out]

theorem constrain_eq_clamp (n : Int) : constrain n 0 255 = clamp n 0 255 := by
  unfold constrain clamp
  split
  · omega
  · split <;> omega

theorem toSigned_of_range (w : Nat) (hw : 0 < w) (n : Int) (hlo : -2 ^ (w - 1) ≤ n)
    (hhi : n < 2 ^ (w - 1)) : toSigned w n = n := by
  obtain ⟨k, rfl⟩ : ∃ k, w = k + 1 := ⟨w - 1, by omega⟩
  simp only [Nat.add_sub_cancel] at hlo hhi
  unfold toSigned
  simp only [Nat.add_sub_cancel]
  have hp : (0 : Int) < 2 ^ k := by positivity
  have h2 : (2 : Int) ^ (k + 1) = 2 * 2 ^ k := by ring
  rw [h2]
  generalize (2 : Int) ^ k = P at *
  by_cases hn : 0 ≤ n
  · rw [Int.emod_eq_of_lt hn (by omega)]
    simp [hhi]
  · have : n % (2 * P) = n + 2 * P := by
      rw [← Int.add_mul_emod_self_left n (2 * P) 1, Int.emod_eq_of_lt (by omega) (by omega)]
      ring
    rw [this]
    rw [if_neg (by omega)]
    ring

theorem toUint8_clamp (n : Int) : toUint8 (clamp n 0 255) = (clamp n 0 255).toNat := by
  unfold toUint8 clamp
  congr 1
  omega

theorem showInt_ne_nil (plus : Bool) (n : Int) : showInt plus n ≠ [] := by
  unfold showInt
  obtain ⟨c, cs, hc, -⟩ := decimal_cons n.toNat
  split
  · simp
  · simp [hc]

theorem decimal_nonspace (n : Nat) : ∀ c ∈ decimal n, isspace c = false := by
  intro c hc
  unfold decimal at hc
  obtain ⟨d, hd, rfl⟩ := List.mem_map.mp hc
  exact (isdigit_facts (digitChar_isdigit (decimalDigits_lt n d hd)).1).1

theorem showInt_nonspace (plus : Bool) (n : Int) : ∀ c ∈ showInt plus n, isspace c = false := by
  intro c hc
  unfold showInt at hc
  split at hc
  · rcases List.mem_cons.mp hc with rfl | h
    · decide
    · exact decimal_nonspace _ c h
  · rcases List.mem_append.mp hc with h | h
    · cases plus
      · simp at h
      · simp at h; subst h; decide
    · exact decimal_nonspace _ c h

theorem respond_display (rs : Option Channel) (p : List Char × World) :
    (respond rs p).display = p.2.display := by
  cases rs with
  | none => rfl
  | some ch => exact println_display ch p.1 p.2

theorem respond_out (ch : Channel) (p : List Char × World) :
    (respond (some ch) p).out ch = p.2.out ch ++ p.1 ++ ['\r', '\n'] :=
  println_out_same ch p.1 p.2

theorem dispatch_bright_display (x : List Char) (hx : x ≠ []) (w : World) :
    (dispatch (['B', 'R', 'I', 'G', 'H', 'T', ' '] ++ x) w).2.display
      = (w.currentMode, w.staticColor, toUint8 (constrain (toInt x) 0 255), w.rainbowOffset,
          w.lastRainbowUpdate) := by
  rw [dispatch_bright x hx]
  dsimp only
  split
  · rw [applyStaticColor_display]; rfl
  · rfl

theorem dispatch_bright_out (x : List Char) (hx : x ≠ []) (w : World) (ch : Channel) :
    (dispatch (['B', 'R', 'I', 'G', 'H', 'T', ' '] ++ x) w).2.out ch = w.out ch := by
  rw [dispatch_bright x hx]
  dsimp only
  split
  · rw [applyStaticColor_out]; cases ch <;> rfl
  · cases ch <;> rfl

theorem showInt_head_nonspace (plus : Bool) (n : Int) (rest : List Char) :
    (showInt plus n ++ rest).dropWhile isspace = showInt plus n ++ rest := by
  apply dropWhile_head_false
  have h1 := showInt_ne_nil plus n
  have h2 := showInt_nonspace plus n
  cases h : showInt plus n with
  | nil => exact absurd h h1
  | cons c cs =>
    rw [h] at h2
    simpa using h2 c (by simp)

theorem convInt_minus (r : List Char) : convInt ('-' :: r) = convDigits 254 true r := by
  simp [convInt, List.dropWhile, isspace]

theorem convInt_plus (r : List Char) : convInt ('+' :: r) = convDigits 254 false r := by
  simp [convInt, List.dropWhile, isspace]

theorem convInt_digit (c : Char) (r : List Char) (hc : isdigit c = true) :
    convInt (c :: r) = convDigits 255 false (c :: r) := by
  obtain ⟨h1, h2, h3⟩ := isdigit_facts hc
  simp only [convInt, List.dropWhile, h1]
  split
  · rename_i heq; simp at heq; exact absurd heq.1 h2
  · rename_i heq; simp at heq; exact absurd heq.1 h3
  · rfl

theorem scanField_digits (ds : List Nat) (hds : ∀ d ∈ ds, d < 10) (rest : List Char)
    (hrest : ∀ c ∈ rest.head?, isdigit c = false) (width : Nat) (hw : ds.length ≤ width)
    (acc k : Nat) :
    scanField width acc k (ds.map Nat.digitChar ++ rest)
      = scanDigits acc k (ds.map Nat.digitChar ++ rest) := by
  induction ds generalizing acc k width with
  | nil =>
    cases rest with
    | nil => cases width <;> simp [scanField, scanDigits]
    | cons c cs =>
      have : isdigit c = false := hrest c (by simp)
      cases width <;> simp [scanField, scanDigits, this]
  | cons d ds ih =>
    have hd := digitChar_isdigit (hds d (by simp))
    obtain ⟨v, rfl⟩ : ∃ v, width = v + 1 := ⟨width - 1, by simp at hw; omega⟩
    simp only [List.map_cons, List.cons_append]
    rw [scanField, scanDigits]
    simp only [hd.1, if_true]
    exact ih (fun x hx => hds x (by simp [hx])) v (by simpa using hw) _ _

theorem decimalDigits_length (n k : Nat) (hk : 0 < k) (hn : n < 10 ^ k) :
    (decimalDigits n).length ≤ k := by
  unfold decimalDigits
  split
  · simpa using hk
  · rename_i hne
    rw [List.length_reverse]
    have h1 := Nat.base_pow_length_digits_le 10 n (by norm_num) hne
    have h2 : 10 ^ (Nat.digits 10 n).length < 10 ^ (k + 1) :=
      calc 10 ^ (Nat.digits 10 n).length ≤ 10 * n := h1
        _ < 10 * 10 ^ k := Nat.mul_lt_mul_of_pos_left hn (by norm_num)
        _ = 10 ^ (k + 1) := by ring
    exact Nat.lt_succ_iff.mp ((Nat.pow_lt_pow_iff_right (by norm_num)).mp h2)

theorem convDigits_decimal (width : Nat) (neg : Bool) (n : Nat) (rest : List Char)
    (hrest : ∀ c ∈ rest.head?, isdigit c = false) (hw : (decimalDigits n).length ≤ width) :
    convDigits width neg (decimal n ++ rest)
      = some (toSigned 16 (if neg then -(n : Int) else (n : Int)), rest) := by
  have hlen : (decimalDigits n).length ≠ 0 := by
    simpa [List.length_eq_zero] using decimalDigits_ne_nil n
  have hs : scanField width 0 0 (decimal n ++ rest)
      = (n % 2 ^ 32, (decimalDigits n).length, rest) := by
    unfold decimal
    rw [scanField_digits _ (decimalDigits_lt n) rest hrest width hw]
    exact scanDigits_decimal n rest hrest
  simp only [convDigits, hs, hlen, if_false]
  congr 2
  cases neg
  · simp only [Bool.false_eq_true, if_false, toSigned]
    push_cast
    split <;> split <;> omega
  · simp only [if_true, toSigned]
    push_cast
    split <;> split <;> omega

theorem convInt_showInt (plus : Bool) (n : Int) (rest : List Char)
    (hrest : ∀ c ∈ rest.head?, isdigit c = false) (hn : n.natAbs < 10 ^ 254) :
    convInt (showInt plus n ++ rest) = some (toSigned 16 n, rest) := by
  have hw : (decimalDigits n.natAbs).length ≤ 254 :=
    decimalDigits_length _ 254 (by norm_num) hn
  by_cases hneg : n < 0
  · have habs : ((n.natAbs : Nat) : Int) = -n := by omega
    simp only [showInt, hneg, if_true, List.cons_append, convInt_minus,
      convDigits_decimal 254 true _ rest hrest hw, habs, neg_neg]
  · have hcast : ((n.toNat : Nat) : Int) = n := by omega
    have hnat : n.toNat = n.natAbs := by omega
    rw [← hnat] at hw
    obtain ⟨c, cs, hc, hd⟩ := decimal_cons n.toNat
    cases plus
    · simp only [showInt, hneg, if_false, Bool.false_eq_true, List.nil_append]
      have := convInt_digit c (cs ++ rest) hd
      rw [← List.cons_append, ← hc] at this
      rw [this, convDigits_decimal 255 false _ rest hrest (by omega)]
      simp [hcast]
    · simp only [showInt, hneg, if_false, if_true, List.cons_append, List.nil_append,
        convInt_plus, convDigits_decimal 254 false _ rest hrest hw]
      simp [hcast]

theorem head_space_not_digit (rest : List Char) :
    ∀ c ∈ (' ' :: rest).head?, isdigit c = false := by
  intro c hc
  simp at hc
  subst hc
  decide

theorem sscanfColor_three (pr pg pb : Bool) (r g b : Int) (hr : r.natAbs < 10 ^ 254)
    (hg : g.natAbs < 10 ^ 254) (hb : b.natAbs < 10 ^ 254) :
    sscanfColor (['C', 'O', 'L', 'O', 'R', ' '] ++ showInt pr r ++ [' '] ++ showInt pg g
        ++ [' '] ++ showInt pb b)
      = (3, toSigned 16 r, toSigned 16 g, toSigned 16 b) := by
  have e : ['C', 'O', 'L', 'O', 'R', ' '] ++ showInt pr r ++ [' '] ++ showInt pg g
        ++ [' '] ++ showInt pb b
      = 'C' :: 'O' :: 'L' :: 'O' :: 'R' :: ' ' ::
          (showInt pr r ++ ' ' :: (showInt pg g ++ ' ' :: (showInt pb b ++ []))) := by
    simp
  rw [e]
  simp only [sscanfColor, matchLiteral, if_true, List.dropWhile]
  have hsp : isspace ' ' = true := by decide
  simp only [hsp, showInt_head_nonspace, convInt_showInt _ _ _ (head_space_not_digit _) hr,
    convInt_showInt _ _ _ (head_space_not_digit _) hg,
    convInt_showInt _ _ [] (by simp) hb, List.dropWhile]

theorem dispatch_color (x : List Char) (w : World) :
    dispatch (['C', 'O', 'L', 'O', 'R', ' '] ++ x) w =
      match sscanfColor (['C', 'O', 'L', 'O', 'R', ' '] ++ x) with
      | (3, r, g, b) =>
        (['O', 'K'], setStaticColor (toUint8 (constrain r 0 255)) (toUint8 (constrain g 0 255))
          (toUint8 (constrain b 0 255)) w)
      | _ => (['E', 'R', 'R'], w) := by
  simp [dispatch, equalsIgnoreCase, startsWith, tolower]

theorem setStaticColor_display (r g b : Nat) (w : World) :
    (setStaticColor r g b w).display
      = (AnimationMode.Static, (r, g, b), w.currentBrightness, w.rainbowOffset,
          w.lastRainbowUpdate) := by
  simp only [setStaticColor, applyStaticColor, World.display]

theorem setStaticColor_out (r g b : Nat) (w : World) (ch : Channel) :
    (setStaticColor r g b w).out ch = w.out ch := by
  cases ch <;> simp only [setStaticColor, applyStaticColor, World.out]

theorem isxdigit_facts {c : Char} (h : isxdigit c = true) :
    digitOf c = some (hexValue c) ∧ hexValue c < 16 ∧ isspace c = false ∧ c ≠ '-' ∧ c ≠ '+'
      ∧ c ≠ 'x' ∧ c ≠ 'X' := by
  have hr : (48 ≤ c.toNat ∧ c.toNat ≤ 57) ∨ (65 ≤ c.toNat ∧ c.toNat ≤ 70)
      ∨ (97 ≤ c.toNat ∧ c.toNat ≤ 102) := by
    simpa [isxdigit, or_assoc] using h
  refine ⟨?_, ?_, ?_, ?_, ?_, ?_, ?_⟩
  · unfold digitOf hexValue
    rcases hr with h | h | h
    · rw [if_pos h, if_pos h.2]
    · rw [if_neg (by omega), if_pos (by omega), if_neg (by omega), if_pos h.2]
    · rw [if_neg (by omega), if_neg (by omega), if_pos (by omega), if_neg (by omega),
        if_neg (by omega)]
  · unfold hexValue
    split
    · omega
    · split <;> omega
  · simp only [isspace, Bool.or_eq_false_iff, beq_eq_false_iff_ne, Bool.and_eq_false_iff,
      decide_eq_false_iff_not]
    omega
  all_goals (rintro rfl; revert h; decide)

theorem scanHex_cons (acc : Nat) (c : Char) (cs : List Char) (h : isxdigit c = true) :
    scanHex acc (c :: cs) = scanHex (acc * 16 + hexValue c) cs := by
  obtain ⟨h1, h2, -⟩ := isxdigit_facts h
  simp only [scanHex, h1, h2, if_true]

theorem strtoul16_six (c1 c2 c3 c4 c5 c6 : Char) (h1 : isxdigit c1 = true)
    (h2 : isxdigit c2 = true) (h3 : isxdigit c3 = true) (h4 : isxdigit c4 = true)
    (h5 : isxdigit c5 = true) (h6 : isxdigit c6 = true) :
    strtoul16 [c1, c2, c3, c4, c5, c6]
      = hexByte c1 c2 * 65536 + hexByte c3 c4 * 256 + hexByte c5 c6 := by
  obtain ⟨-, b1, s1, m1, p1, -, -⟩ := isxdigit_facts h1
  obtain ⟨-, b2, -, -, -, x2, y2⟩ := isxdigit_facts h2
  obtain ⟨-, b3, -⟩ := isxdigit_facts h3
  obtain ⟨-, b4, -⟩ := isxdigit_facts h4
  obtain ⟨-, b5, -⟩ := isxdigit_facts h5
  obtain ⟨-, b6, -⟩ := isxdigit_facts h6
  have hscan : scanHex 0 [c1, c2, c3, c4, c5, c6]
      = hexByte c1 c2 * 65536 + hexByte c3 c4 * 256 + hexByte c5 c6 := by
    rw [scanHex_cons _ _ _ h1, scanHex_cons _ _ _ h2, scanHex_cons _ _ _ h3,
      scanHex_cons _ _ _ h4, scanHex_cons _ _ _ h5, scanHex_cons _ _ _ h6]
    simp only [scanHex, hexByte]
    ring
  have hbody : strtoulDigits false [c1, c2, c3, c4, c5, c6]
      = hexByte c1 c2 * 65536 + hexByte c3 c4 * 256 + hexByte c5 c6 := by
    unfold strtoulDigits
    have hm : (match [c1, c2, c3, c4, c5, c6] with
      | '0' :: 'x' :: t => t
      | '0' :: 'X' :: t => t
      | t => t) = [c1, c2, c3, c4, c5, c6] := by
      split
      · rename_i heq; simp at heq; exact absurd heq.2.1 x2
      · rename_i heq; simp at heq; exact absurd heq.2.1 y2
      · rfl
    simp only [hm, hscan, Bool.false_eq_true, if_false]
    rw [if_neg]
    simp only [hexByte]
    omega
  simp only [strtoul16, List.dropWhile, s1]
  split
  · rename_i heq; simp at heq; exact absurd heq.1 m1
  · rename_i heq; simp at heq; exact absurd heq.1 p1
  · exact hbody

theorem dispatch_hex (c1 c2 c3 c4 c5 c6 : Char) (w : World) :
    dispatch ['#', c1, c2, c3, c4, c5, c6] w =
      (['O', 'K'], setStaticColor (strtoul16 [c1, c2, c3, c4, c5, c6] / 65536 % 256)
        (strtoul16 [c1, c2, c3, c4, c5, c6] / 256 % 256)
        (strtoul16 [c1, c2, c3, c4, c5, c6] % 256) w) := by
  simp [dispatch, equalsIgnoreCase, startsWith, tolower, colorFromHex, substring]

theorem equalsIgnoreCase_iff (s t : List Char) :
    equalsIgnoreCase s t = true ↔ s.map tolower = t.map tolower := by
  unfold equalsIgnoreCase
  induction s generalizing t with
  | nil => cases t <;> simp
  | cons a s ih =>
    cases t with
    | nil => simp
    | cons b t =>
      have := ih t
      simp only [Bool.and_eq_true, beq_iff_eq] at this
      simp only [List.length_cons, List.zip_cons_cons, List.all_cons, Bool.and_eq_true,
        beq_iff_eq, List.map_cons, List.cons.injEq, Nat.add_right_cancel_iff]
      constructor
      · rintro ⟨hl, h1, h2⟩
        exact ⟨h1, this.mp ⟨hl, h2⟩⟩
      · rintro ⟨h1, h2⟩
        have := this.mpr h2
        exact ⟨this.1, h1, this.2⟩

theorem startsWith_iff (s t : List Char) : startsWith s t = true ↔ ∃ r, s = t ++ r := by
  unfold startsWith
  simp only [Bool.and_eq_true, decide_eq_true_eq, beq_iff_eq]
  constructor
  · rintro ⟨-, h⟩
    generalize hn : t.length = n at h
    subst h
    exact ⟨s.drop n, (List.take_append_drop n s).symm⟩
  · rintro ⟨r, rfl⟩
    simp

theorem dispatch_unknown (cmd : List Char) (w : World)
    (hoff : cmd.map tolower ≠ ['o', 'f', 'f'])
    (hrainbow : cmd.map tolower ≠ ['r', 'a', 'i', 'n', 'b', 'o', 'w'])
    (hhex : ¬ (cmd.head? = some '#' ∧ cmd.length = 7))
    (hcolor : ∀ rest, cmd ≠ ['C', 'O', 'L', 'O', 'R', ' '] ++ rest)
    (hbright : ∀ rest, cmd ≠ ['B', 'R', 'I', 'G', 'H', 'T', ' '] ++ rest) :
    dispatch cmd w = (['E', 'R', 'R'], println Channel.serial
      ['U', 'n', 'k', 'n', 'o', 'w', 'n', ' ', 'c', 'o', 'm', 'm', 'a', 'n', 'd', '.'] w) := by
  have h1 : equalsIgnoreCase cmd ['O', 'F', 'F'] = false := by
    rw [Bool.eq_false_iff, Ne, equalsIgnoreCase_iff]
    exact hoff
  have h2 : equalsIgnoreCase cmd ['R', 'A', 'I', 'N', 'B', 'O', 'W'] = false := by
    rw [Bool.eq_false_iff, Ne, equalsIgnoreCase_iff]
    exact hrainbow
  have h3 : (startsWith cmd ['#'] && cmd.length == 7) = false := by
    rw [Bool.eq_false_iff]
    intro h
    simp only [Bool.and_eq_true, beq_iff_eq, startsWith_iff] at h
    obtain ⟨⟨r, rfl⟩, hl⟩ := h
    exact hhex ⟨rfl, hl⟩
  have h4 : startsWith cmd ['C', 'O', 'L', 'O', 'R', ' '] = false := by
    rw [Bool.eq_false_iff, Ne, startsWith_iff]
    rintro ⟨r, hr⟩
    exact hcolor r hr
  have h5 : startsWith cmd ['B', 'R', 'I', 'G', 'H', 'T', ' '] = false := by
    rw [Bool.eq_false_iff, Ne, startsWith_iff]
    rintro ⟨r, hr⟩
    exact hbright r hr
  simp only [dispatch, h1, h2, h3, h4, h5, Bool.false_eq_true, if_false]

theorem println_strip (ch : Channel) (t : List Char) (w : World) :
    (println ch t w).strip = w.strip := by
  cases ch <;> rfl

theorem respond_strip (rs : Option Channel) (p : List Char × World) :
    (respond rs p).strip = p.2.strip := by
  cases rs with
  | none => rfl
  | some ch => exact println_strip ch p.1 p.2

theorem received_strip (cmd : List Char) (w : World) : (received cmd w).strip = w.strip := rfl

theorem trim_keep_front (a b : List Char) (ha0 : a ≠ [])
    (ha : ∀ c ∈ a.head?, isspace c = false) (hl : ∀ c ∈ a.getLast?, isspace c = false) :
    ∃ y, trim (a ++ b) = a ++ y := by
  unfold trim
  have h1 : (a ++ b).dropWhile isspace = a ++ b := by
    apply dropWhile_head_false
    cases a with
    | nil => exact absurd rfl ha0
    | cons c cs => simpa using ha
  have h2 : a.reverse.dropWhile isspace = a.reverse :=
    dropWhile_head_false _ (by simpa using hl)
  rw [h1, List.reverse_append, List.dropWhile_append]
  split
  · exact ⟨[], by rw [h2]; simp⟩
  · exact ⟨(b.reverse.dropWhile isspace).reverse, by simp⟩

theorem dispatch_color_few (y : List Char) (w : World)
    (hfew : (sscanfColor (['C', 'O', 'L', 'O', 'R'] ++ y)).1 < 3) :
    ∃ u : Bool, dispatch (['C', 'O', 'L', 'O', 'R'] ++ y) w
      = (['E', 'R', 'R'], if u then println Channel.serial
          ['U', 'n', 'k', 'n', 'o', 'w', 'n', ' ', 'c', 'o', 'm', 'm', 'a', 'n', 'd', '.'] w
          else w) := by
  by_cases hsw : startsWith (['C', 'O', 'L', 'O', 'R'] ++ y) ['C', 'O', 'L', 'O', 'R', ' '] = true
  · refine ⟨false, ?_⟩
    obtain ⟨r, hr⟩ := (startsWith_iff _ _).mp hsw
    rw [hr] at hfew ⊢
    rw [dispatch_color]
    split
    · rename_i heq
      rw [heq] at hfew
      exact absurd hfew (Nat.lt_irrefl 3)
    · rfl
  · refine ⟨true, ?_⟩
    simp only [Bool.not_eq_true] at hsw
    have h1 : equalsIgnoreCase (['C', 'O', 'L', 'O', 'R'] ++ y) ['O', 'F', 'F'] = false := by
      simp [equalsIgnoreCase, tolower]
    have h2 : equalsIgnoreCase (['C', 'O', 'L', 'O', 'R'] ++ y)
        ['R', 'A', 'I', 'N', 'B', 'O', 'W'] = false := by
      simp [equalsIgnoreCase, tolower]
    have h3 : startsWith (['C', 'O', 'L', 'O', 'R'] ++ y) ['#'] = false := by
      simp [startsWith]
    have h5 : startsWith (['C', 'O', 'L', 'O', 'R'] ++ y) ['B', 'R', 'I', 'G', 'H', 'T', ' ']
        = false := by
      simp [startsWith]
    simp only [dispatch, h1, h2, h3, hsw, h5, Bool.false_and, Bool.false_eq_true, if_false,
      if_true]

theorem dispatch_off (w : World) :
    dispatch ['O', 'F', 'F'] w = (['O', 'K'], setStaticColor 0 0 0 w) := by
  simp [dispatch, equalsIgnoreCase, tolower]

theorem dispatch_rainbow (w : World) :
    dispatch ['R', 'A', 'I', 'N', 'B', 'O', 'W'] w = (['O', 'K'], startRainbow w) := by
  simp [dispatch, equalsIgnoreCase, tolower]

theorem off_result (w : World) (rs : Option Channel) :
    (handleCommand ['O', 'F', 'F'] rs w).currentMode = AnimationMode.Static
    ∧ (handleCommand ['O', 'F', 'F'] rs w).staticColor = (0, 0, 0)
    ∧ ∀ ch, rs = some ch →
        (handleCommand ['O', 'F', 'F'] rs w).out ch
          = w.out ch ++ diagnostics ch ['O', 'F', 'F'] false ++ ['O', 'K', '\r', '\n'] := by
  have htrim : trim ['O', 'F', 'F'] = ['O', 'F', 'F'] := by decide
  rw [handleCommand_eq _ _ _ (by rw [htrim]; simp), htrim, dispatch_off]
  have h := respond_display rs (['O', 'K'], setStaticColor 0 0 0 (received ['O', 'F', 'F'] w))
  rw [setStaticColor_display] at h
  refine ⟨congrArg (fun d => d.1) h, congrArg (fun d => d.2.1) h, ?_⟩
  rintro ch rfl
  rw [respond_out, setStaticColor_out]
  cases ch <;> simp [println, print, received, World.out, diagnostics, unknownNote]

theorem pollStreamWith_fill {σ : Type} (handle : List Char → σ → σ) (bs rest : List Char)
    (hbs : ∀ c ∈ bs, c ≠ '\n' ∧ c ≠ '\r') (buffer : List Char) (hlen : buffer.length ≤ 48)
    (w : σ) :
    pollStreamWith handle (bs ++ rest) buffer w
      = pollStreamWith handle rest ((buffer ++ bs).take 48) w := by
  induction bs generalizing buffer with
  | nil => simp [List.take_of_length_le hlen]
  | cons c cs ih =>
    have hc := hbs c (by simp)
    have hcs : ∀ d ∈ cs, d ≠ '\n' ∧ d ≠ '\r' := fun d hd => hbs d (by simp [hd])
    simp only [List.cons_append, pollStreamWith, hc.1, hc.2, if_false, ne_eq, not_false_eq_true,
      if_true, List.append_eq]
    split
    · rename_i hlt
      rw [ih hcs (buffer ++ [c]) (by simp; omega)]
      simp
    · rename_i hge
      have h48 : buffer.length = 48 := by omega
      rw [ih hcs buffer hlen]
      rw [List.take_append_eq_append_take, List.take_append_eq_append_take]
      simp [h48]

theorem foldl_setPixelColor_shown (f : Strip → Nat → Nat) (l : List Nat) (s : Strip) :
    (l.foldl (fun s i => s.setPixelColor i (f s i)) s).shown = s.shown
    ∧ (l.foldl (fun s i => s.setPixelColor i (f s i)) s).brightness = s.brightness := by
  induction l generalizing s with
  | nil => exact ⟨rfl, rfl⟩
  | cons i l ih =>
    simp only [List.foldl_cons]
    have h := ih (s.setPixelColor i (f s i))
    have e : (s.setPixelColor i (f s i)).shown = s.shown
        ∧ (s.setPixelColor i (f s i)).brightness = s.brightness := by
      unfold Strip.setPixelColor
      split <;> exact ⟨rfl, rfl⟩
    exact ⟨h.1.trans e.1, h.2.trans e.2⟩

theorem usub32_of_le (now last : Nat) (h : last ≤ now) (hnow : now < 2 ^ 32) :
    usub32 now last = now - last := by
  unfold usub32
  have h1 : last % 2 ^ 32 = last := Nat.mod_eq_of_lt (by omega)
  have h2 : now % 2 ^ 32 = now := Nat.mod_eq_of_lt hnow
  rw [h1, h2]
  norm_num at hnow ⊢
  omega

theorem updateRainbow_idle (now : Nat) (w : World)
    (h : usub32 now w.lastRainbowUpdate < RAINBOW_INTERVAL_MS) : updateRainbow now w = w := by
  simp only [updateRainbow, h, if_true]

theorem updateRainbow_due (now : Nat) (w : World)
    (h : ¬ usub32 now w.lastRainbowUpdate < RAINBOW_INTERVAL_MS) :
    (∃ pixels, (updateRainbow now w).strip.shown
        = w.strip.shown ++ [(pixels, w.currentBrightness)])
    ∧ (updateRainbow now w).rainbowOffset = (w.rainbowOffset + 1) % 256
    ∧ (updateRainbow now w).lastRainbowUpdate = now
    ∧ (updateRainbow now w).currentMode = w.currentMode
    ∧ (updateRainbow now w).staticColor = w.staticColor
    ∧ (updateRainbow now w).currentBrightness = w.currentBrightness
    ∧ (updateRainbow now w).history = w.history ++ [Event.frame now w.rainbowOffset] := by
  simp only [updateRainbow, h, if_false, and_true]
  have hs := (foldl_setPixelColor_shown
    (fun s i => wheel ((i * 256 % 65536 / s.numPixels + w.rainbowOffset) % 65536 % 256))
    (List.range w.strip.numPixels) w.strip).1
  simp only [Strip.show, Strip.setBrightness, hs]
  exact ⟨_, rfl⟩

theorem linesOf_append_newline (a rest : List Char) (ha : '\n' ∉ a) :
    linesOf (a ++ '\n' :: rest) = a :: linesOf rest := by
  induction a with
  | nil => simp [linesOf]
  | cons c a ih =>
    have hc : c ≠ '\n' := fun h => ha (by simp [h])
    have ha' : '\n' ∉ a := fun h => ha (by simp [h])
    simp only [List.cons_append, linesOf, hc, if_false, List.append_eq, ih ha']

theorem dispatch_outputs (cmd : List Char) (w : World) :
    ∃ u : Bool, (dispatch cmd w).2.serialOut = w.serialOut ++ unknownNote u
      ∧ (dispatch cmd w).2.bluetoothOut = w.bluetoothOut
      ∧ ((dispatch cmd w).1 = ['O', 'K'] ∨ (dispatch cmd w).1 = ['E', 'R', 'R']) := by
  unfold dispatch
  split_ifs
  · exact ⟨false, by simp [setStaticColor, applyStaticColor, unknownNote]⟩
  · exact ⟨false, by simp [startRainbow, unknownNote]⟩
  · exact ⟨false, by simp [setStaticColor, applyStaticColor, unknownNote]⟩
  · split
    · exact ⟨false, by simp [setStaticColor, applyStaticColor, unknownNote]⟩
    · exact ⟨false, by simp [unknownNote]⟩
  · refine ⟨false, ?_⟩
    dsimp only
    split_ifs <;> simp [applyStaticColor, unknownNote]
  · exact ⟨true, by simp [println, print, unknownNote]⟩

theorem mem_trim {c : Char} {s : List Char} (h : c ∈ trim s) : c ∈ s := by
  unfold trim at h
  rw [List.mem_reverse] at h
  have h1 := (List.dropWhile_sublist isspace).subset h
  rw [List.mem_reverse] at h1
  exact (List.dropWhile_sublist isspace).subset h1

theorem diagnostics_no_status (cmd : List Char) (hcmd : '\n' ∉ cmd) (u : Bool) :
    ∀ l ∈ linesOf (diagnostics Channel.serial cmd u),
      l ≠ ['O', 'K', '\r'] ∧ l ≠ ['E', 'R', 'R', '\r'] := by
  have e : diagnostics Channel.serial cmd u
      = (['R', 'e', 'c', 'e', 'i', 'v', 'e', 'd', ' ', 'c', 'o', 'm', 'm', 'a', 'n', 'd', ':', ' ']
          ++ cmd ++ ['\r']) ++ '\n' :: unknownNote u := by
    cases u <;> simp [diagnostics, unknownNote]
  have hfirst : '\n' ∉ ['R', 'e', 'c', 'e', 'i', 'v', 'e', 'd', ' ', 'c', 'o', 'm', 'm', 'a', 'n',
      'd', ':', ' '] ++ cmd ++ ['\r'] := by
    simp only [List.mem_append, not_or]
    exact ⟨⟨by decide, hcmd⟩, by decide⟩
  have hnote : ∀ l ∈ linesOf (unknownNote u),
      l ≠ ['O', 'K', '\r'] ∧ l ≠ ['E', 'R', 'R', '\r'] := by
    cases u <;> decide
  rw [e, linesOf_append_newline _ _ hfirst]
  intro l hl
  rcases List.mem_cons.mp hl with rfl | hl'
  · constructor <;> intro h <;> simp at h
  · exact hnote l hl'

theorem dispatch_history (cmd : List Char) (w : World) :
    ((dispatch cmd w).2.history = w.history
        ∧ (dispatch cmd w).2.lastRainbowUpdate = w.lastRainbowUpdate
        ∧ (dispatch cmd w).2.rainbowOffset = w.rainbowOffset)
    ∨ ((dispatch cmd w).2.history = w.history ++ [Event.restart]
        ∧ (dispatch cmd w).2.lastRainbowUpdate = 0
        ∧ (dispatch cmd w).2.rainbowOffset = w.rainbowOffset) := by
  unfold dispatch
  split_ifs
  · exact Or.inl (by simp [setStaticColor, applyStaticColor])
  · exact Or.inr (by simp [startRainbow])
  · exact Or.inl (by simp [setStaticColor, applyStaticColor])
  · split
    · exact Or.inl (by simp [setStaticColor, applyStaticColor])
    · exact Or.inl (by simp)
  · left
    dsimp only
    split_ifs <;> simp [applyStaticColor]
  · exact Or.inl (by simp [println, print])

theorem handleCommand_history (line : List Char) (rs : Option Channel) (w : World) :
    ((handleCommand line rs w).history = w.history
        ∧ (handleCommand line rs w).lastRainbowUpdate = w.lastRainbowUpdate
        ∧ (handleCommand line rs w).rainbowOffset = w.rainbowOffset)
    ∨ ((handleCommand line rs w).history = w.history ++ [Event.restart]
        ∧ (handleCommand line rs w).lastRainbowUpdate = 0
        ∧ (handleCommand line rs w).rainbowOffset = w.rainbowOffset) := by
  by_cases hblank : trim line = []
  · have hnop : handleCommand line rs w = w := by
      unfold handleCommand
      split
      · rfl
      · simp [hblank]
    rw [hnop]
    exact Or.inl ⟨rfl, rfl, rfl⟩
  · rw [handleCommand_eq _ _ _ hblank]
    have hr : ∀ p : List Char × World, (respond rs p).history = p.2.history
        ∧ (respond rs p).lastRainbowUpdate = p.2.lastRainbowUpdate
        ∧ (respond rs p).rainbowOffset = p.2.rainbowOffset := by
      intro p
      cases rs with
      | none => exact ⟨rfl, rfl, rfl⟩
      | some ch => cases ch <;> exact ⟨rfl, rfl, rfl⟩
    obtain ⟨h1, h2, h3⟩ := hr (dispatch (trim line) (received (trim line) w))
    rw [h1, h2, h3]
    exact dispatch_history (trim line) (received (trim line) w)

theorem runInv_command {w : World} {lo : Nat} (h : RunInv w lo) (line : List Char)
    (rs : Option Channel) : RunInv (handleCommand line rs w) lo := by
  rcases handleCommand_history line rs w with ⟨h1, h2, h3⟩ | ⟨h1, h2, h3⟩
  · exact ⟨by rw [h1]; exact h.spaced, by rw [h1]; exact h.phases,
      by rw [h1, h2]; exact h.last, by rw [h1, h3]; exact h.offset, by rw [h2]; exact h.le⟩
  · have hf : frames (w.history ++ [Event.restart]) = frames w.history := by
      simp [frames]
    refine ⟨?_, by rw [h1, hf]; exact h.phases, ?_, by rw [h1, hf, h3]; exact h.offset,
      by rw [h2]; exact Nat.zero_le _⟩
    · rw [h1, List.chain'_append]
      refine ⟨h.spaced, List.chain'_singleton _, ?_⟩
      intro x _ y hy
      simp only [List.head?_cons, Option.mem_def, Option.some.injEq] at hy
      subst hy
      cases x <;> trivial
    · intro t p hlast
      rw [h1, List.getLast?_concat] at hlast
      simp at hlast

theorem usub32_due (now last : Nat) (h : last ≤ now)
    (hdue : ¬ usub32 now last < RAINBOW_INTERVAL_MS) : last + RAINBOW_INTERVAL_MS ≤ now := by
  unfold usub32 RAINBOW_INTERVAL_MS at *
  norm_num at hdue ⊢
  omega

theorem runInv_tick {w : World} {lo : Nat} (h : RunInv w lo) (now : Nat) (hlo : lo ≤ now) :
    RunInv (tick now w) now := by
  have hle : w.lastRainbowUpdate ≤ now := Nat.le_trans h.le hlo
  by_cases hidle : tick now w = w
  · rw [hidle]
    exact ⟨h.spaced, h.phases, h.last, h.offset, hle⟩
  · have hmode : w.currentMode = AnimationMode.Rainbow := by
      by_contra hm
      exact hidle (by simp [tick, hm])
    have ht : tick now w = updateRainbow now w := by simp [tick, hmode]
    have hdue : ¬ usub32 now w.lastRainbowUpdate < RAINBOW_INTERVAL_MS := by
      intro hlt
      exact hidle (by rw [ht]; exact updateRainbow_idle now w hlt)
    obtain ⟨-, h2, h3, -, -, -, h7⟩ := updateRainbow_due now w hdue
    have hgap := usub32_due now _ hle hdue
    rw [ht]
    have hf : frames (w.history ++ [Event.frame now w.rainbowOffset])
        = frames w.history ++ [(now, w.rainbowOffset)] := by
      simp [frames]
    refine ⟨?_, ?_, ?_, ?_, by rw [h3]⟩
    · rw [h7, List.chain'_append]
      refine ⟨h.spaced, List.chain'_singleton _, ?_⟩
      intro x hx y hy
      simp only [List.head?_cons, Option.mem_def, Option.some.injEq] at hy
      subst hy
      cases x with
      | restart => trivial
      | frame t p =>
        have := h.last t p hx
        show t + RAINBOW_INTERVAL_MS ≤ now
        rw [← this]
        exact hgap
    · rw [h7, hf, List.chain'_append]
      refine ⟨h.phases, List.chain'_singleton _, ?_⟩
      intro x hx y hy
      simp only [List.head?_cons, Option.mem_def, Option.some.injEq] at hy
      subst hy
      exact h.offset x hx
    · intro t p hlast
      rw [h7, List.getLast?_concat] at hlast
      simp only [Option.some.injEq, Event.frame.injEq] at hlast
      rw [h3]
      exact hlast.1
    · intro f hf'
      rw [h7, hf, List.getLast?_concat] at hf'
      simp only [Option.mem_def, Option.some.injEq] at hf'
      subst hf'
      exact h2

theorem runInv_run (steps : List Step) :
    ∀ (w : World) (lo : Nat), RunInv w lo →
      (∀ t ∈ tickTimes steps, lo ≤ t) →
      List.Pairwise (fun a b => a ≤ b) (tickTimes steps) →
      ∃ hi, RunInv (run steps w) hi := by
  induction steps with
  | nil => exact fun w lo h _ _ => ⟨lo, h⟩
  | cons s rest ih =>
    intro w lo h hbound hmono
    cases s with
    | command line origin =>
      exact ih _ lo (runInv_command h line origin) (by simpa [tickTimes] using hbound)
        (by simpa [tickTimes] using hmono)
    | tick now =>
      have e : tickTimes (Step.tick now :: rest) = now :: tickTimes rest := by
        simp [tickTimes]
      rw [e] at hbound hmono
      have hn := hbound now (by simp)
      rw [List.pairwise_cons] at hmono
      exact ih _ now (runInv_tick h now hn) (fun t ht => hmono.1 t ht) hmono.2

theorem scanField_append_space (ws : List Char) (hws : ∀ c ∈ ws, isspace c = true)
    (r : List Char) (width acc k : Nat) :
    scanField width acc k (r ++ ws)
      = ((scanField width acc k r).1, (scanField width acc k r).2.1,
          (scanField width acc k r).2.2 ++ ws) := by
  induction r generalizing width acc k with
  | nil =>
    cases width with
    | zero => simp [scanField]
    | succ v =>
      cases ws with
      | nil => simp [scanField]
      | cons c cs =>
        have hc : isdigit c = false := by
          have := hws c (by simp)
          simp only [isspace, Bool.or_eq_true, beq_iff_eq, Bool.and_eq_true,
            decide_eq_true_eq] at this
          simp only [isdigit, Bool.and_eq_false_iff, decide_eq_false_iff_not]
          omega
        simp [scanField, hc]
  | cons c cs ih =>
    cases width with
    | zero => simp [scanField]
    | succ v =>
      simp only [List.cons_append, scanField]
      split
      · exact ih v _ _
      · rfl

theorem convDigits_append_space (ws : List Char) (hws : ∀ c ∈ ws, isspace c = true)
    (width : Nat) (neg : Bool) (r : List Char) :
    convDigits width neg (r ++ ws)
      = (convDigits width neg r).map (fun p => (p.1, p.2 ++ ws)) := by
  simp only [convDigits, scanField_append_space ws hws r]
  split <;> rfl

theorem convInt_skip (z : List Char) : convInt (z.dropWhile isspace) = convInt z := by
  simp only [convInt, List.dropWhile_idempotent]

theorem convInt_other (c : Char) (r : List Char) (hs : isspace c = false) (h1 : c ≠ '-')
    (h2 : c ≠ '+') : convInt (c :: r) = convDigits 255 false (c :: r) := by
  simp only [convInt, List.dropWhile, hs]
  split
  · rename_i heq; simp at heq; exact absurd heq.1 h1
  · rename_i heq; simp at heq; exact absurd heq.1 h2
  · rfl

theorem convInt_append_space (ws : List Char) (hws : ∀ c ∈ ws, isspace c = true)
    (y : List Char) :
    convInt (y ++ ws) = (convInt y).map (fun p => (p.1, p.2 ++ ws)) := by
  have hall : ws.dropWhile isspace = [] := by
    rw [List.dropWhile_eq_nil_iff]
    exact hws
  rw [← convInt_skip (y ++ ws), ← convInt_skip y, List.dropWhile_append]
  cases h : y.dropWhile isspace with
  | nil =>
    simp only [List.isEmpty_nil, if_true, hall]
    rfl
  | cons c cs =>
    have hs : isspace c = false := by
      have := List.head?_dropWhile_not isspace y
      rw [h] at this
      simpa using this
    simp only [List.isEmpty_cons, Bool.false_eq_true, if_false, List.cons_append]
    by_cases h1 : c = '-'
    · subst h1
      rw [convInt_minus, convInt_minus]
      exact convDigits_append_space ws hws 254 true cs
    · by_cases h2 : c = '+'
      · subst h2
        rw [convInt_plus, convInt_plus]
        exact convDigits_append_space ws hws 254 false cs
      · rw [convInt_other c _ hs h1 h2, convInt_other c _ hs h1 h2]
        exact convDigits_append_space ws hws 255 false (c :: cs)

theorem sscanfColor_append_space (ws : List Char) (hws : ∀ c ∈ ws, isspace c = true)
    (y : List Char) :
    (sscanfColor (['C', 'O', 'L', 'O', 'R'] ++ (y ++ ws))).1
      = (sscanfColor (['C', 'O', 'L', 'O', 'R'] ++ y)).1 := by
  simp only [sscanfColor, List.cons_append, List.nil_append, matchLiteral, if_true,
    List.append_eq, convInt_skip]
  rw [convInt_append_space ws hws]
  cases h1 : convInt y with
  | none => rfl
  | some p1 =>
    obtain ⟨r, s1⟩ := p1
    simp only [Option.map_some']
    rw [convInt_append_space ws hws]
    cases h2 : convInt s1 with
    | none => rfl
    | some p2 =>
      obtain ⟨g, s2⟩ := p2
      simp only [Option.map_some']
      rw [convInt_append_space ws hws]
      cases h3 : convInt s2 with
      | none => rfl
      | some p3 => rfl

theorem trim_color (rest : List Char) :
    ∃ y ws, (∀ c ∈ ws, isspace c = true) ∧ ' ' :: rest = y ++ ws
      ∧ trim (['C', 'O', 'L', 'O', 'R', ' '] ++ rest) = ['C', 'O', 'L', 'O', 'R'] ++ y := by
  have h1 : (['C', 'O', 'L', 'O', 'R', ' '] ++ rest).dropWhile isspace
      = ['C', 'O', 'L', 'O', 'R', ' '] ++ rest := by
    simp [List.dropWhile, isspace]
  have e : (['C', 'O', 'L', 'O', 'R', ' '] ++ rest).reverse
      = (' ' :: rest).reverse ++ ['R', 'O', 'L', 'O', 'C'] := by
    simp
  refine ⟨((' ' :: rest).reverse.dropWhile isspace).reverse,
    ((' ' :: rest).reverse.takeWhile isspace).reverse, ?_, ?_, ?_⟩
  · intro c hc
    rw [List.mem_reverse] at hc
    exact List.mem_takeWhile_imp hc
  · rw [← List.reverse_append, List.takeWhile_append_dropWhile, List.reverse_reverse]
  · unfold trim
    rw [h1, e, List.dropWhile_append]
    split
    · rename_i hy
      have hy' : (' ' :: rest).reverse.dropWhile isspace = [] := by simpa using hy
      rw [hy']
      simp [List.dropWhile, isspace]
    · simp

theorem sscanfColor_trim (rest : List Char) :
    (sscanfColor (trim (['C', 'O', 'L', 'O', 'R', ' '] ++ rest))).1
      = (sscanfColor (['C', 'O', 'L', 'O', 'R', ' '] ++ rest)).1 := by
  obtain ⟨y, ws, hws, hsplit, htrim⟩ := trim_color rest
  have e : ['C', 'O', 'L', 'O', 'R', ' '] ++ rest = ['C', 'O', 'L', 'O', 'R'] ++ (y ++ ws) := by
    rw [← hsplit]
    rfl
  rw [htrim, e, sscanfColor_append_space ws hws y]

/-! ## C1: the line `BRIGHT n` -/

/-- C1, amended: for every integer `n` in the range of a 32-bit `long`, written in decimal
with a minus sign when negative and with or without a plus sign otherwise, handling the line
`BRIGHT n` leaves `currentBrightness` equal to `clamp n 0 255`, and the response stream
receives the status line `OK` (on the wired link after the diagnostic echo). -/
theorem bright_sets_clamped (w : World) (plus : Bool) (n : Int)
    (hlo : -2 ^ 31 ≤ n) (hhi : n < 2 ^ 31) (rs : Option Channel) :
    (handleCommand (brightLine plus n) rs w).currentBrightness = (clamp n 0 255).toNat
    ∧ ∀ ch, rs = some ch →
        (handleCommand (brightLine plus n) rs w).out ch
          = w.out ch ++ diagnostics ch (brightLine plus n) false ++ ['O', 'K', '\r', '\n'] := by
  unfold brightLine
  have hne : showInt plus n ≠ [] := showInt_ne_nil plus n
  have htrim : trim (['B', 'R', 'I', 'G', 'H', 'T', ' '] ++ showInt plus n)
      = ['B', 'R', 'I', 'G', 'H', 'T', ' '] ++ showInt plus n :=
    trim_append _ _ (by simp [isspace]) (by simp) (showInt_nonspace plus n) hne
  have hlevel : toUint8 (constrain (toInt (showInt plus n)) 0 255) = (clamp n 0 255).toNat := by
    rw [toInt, atol_showInt, toSigned_of_range 32 (by norm_num) n (by simpa using hlo)
      (by simpa using hhi), constrain_eq_clamp, toUint8_clamp]
  rw [handleCommand_eq _ _ _ (by rw [htrim]; simp), htrim]
  constructor
  · have h := respond_display rs (dispatch (['B', 'R', 'I', 'G', 'H', 'T', ' '] ++ showInt plus n)
      (received (['B', 'R', 'I', 'G', 'H', 'T', ' '] ++ showInt plus n) w))
    rw [dispatch_bright_display _ hne, hlevel] at h
    exact congrArg (fun d => d.2.2.1) h
  · rintro ch rfl
    rw [respond_out, dispatch_bright_out _ hne, received_out, dispatch_bright _ hne]
    simp

/-- C1 at `BRIGHT 300` and at `BRIGHT -7`: the brightness becomes 255 and 0. -/
theorem bright_sets_clamped_witness :
    (handleCommand (brightLine false 300) (some Channel.bluetooth) World.initial).currentBrightness
        = (clamp 300 0 255).toNat
    ∧ (handleCommand (brightLine false (-7)) (some Channel.serial) World.initial).currentBrightness
        = (clamp (-7) 0 255).toNat :=
  ⟨(bright_sets_clamped World.initial false 300 (by norm_num) (by norm_num)
      (some Channel.bluetooth)).1,
   (bright_sets_clamped World.initial false (-7) (by norm_num) (by norm_num)
      (some Channel.serial)).1⟩

/-- C1 as stated fails outside the range of `long`: `4294967296` is `2 ^ 32`; the line
`BRIGHT 4294967296` sets the brightness to 0, and `clamp 4294967296 0 255` is 255. -/
theorem bright_beyond_long :
    brightLine false 4294967296
        = ['B', 'R', 'I', 'G', 'H', 'T', ' ', '4', '2', '9', '4', '9', '6', '7', '2', '9', '6']
    ∧ (handleCommand
        ['B', 'R', 'I', 'G', 'H', 'T', ' ', '4', '2', '9', '4', '9', '6', '7', '2', '9', '6']
        (some Channel.bluetooth) World.initial).currentBrightness = 0
    ∧ (clamp 4294967296 0 255).toNat = 255
    ∧ (handleCommand (brightLine false 4294967296) (some Channel.bluetooth)
        World.initial).currentBrightness ≠ (clamp 4294967296 0 255).toNat := by
  have h : brightLine false 4294967296
      = ['B', 'R', 'I', 'G', 'H', 'T', ' ', '4', '2', '9', '4', '9', '6', '7', '2', '9', '6'] := by
    simp [brightLine, showInt, decimal, decimalDigits]
    decide
  refine ⟨h, by decide, by decide, ?_⟩
  rw [h]
  decide

/-! ## C2: the line `COLOR r g b` -/

/-- C2, amended: for all integers `r`, `g`, `b` in the range of a 16-bit `int`, each written
in decimal, handling the line `COLOR r g b` leaves `staticColor` equal to
`(clamp r 0 255, clamp g 0 255, clamp b 0 255)`, sets the mode to `Static`, and the response
stream receives the status line `OK`. -/
theorem color_sets_clamped (w : World) (pr pg pb : Bool) (r g b : Int)
    (hr : -2 ^ 15 ≤ r ∧ r < 2 ^ 15) (hg : -2 ^ 15 ≤ g ∧ g < 2 ^ 15)
    (hb : -2 ^ 15 ≤ b ∧ b < 2 ^ 15) (rs : Option Channel) :
    (handleCommand (colorLine pr pg pb r g b) rs w).staticColor
      = ((clamp r 0 255).toNat, (clamp g 0 255).toNat, (clamp b 0 255).toNat)
    ∧ (handleCommand (colorLine pr pg pb r g b) rs w).currentMode = AnimationMode.Static
    ∧ ∀ ch, rs = some ch →
        (handleCommand (colorLine pr pg pb r g b) rs w).out ch
          = w.out ch ++ diagnostics ch (colorLine pr pg pb r g b) false
              ++ ['O', 'K', '\r', '\n'] := by
  unfold colorLine
  have htrim : trim (['C', 'O', 'L', 'O', 'R', ' '] ++ showInt pr r ++ [' '] ++ showInt pg g
        ++ [' '] ++ showInt pb b) = ['C', 'O', 'L', 'O', 'R', ' '] ++ showInt pr r ++ [' ']
        ++ showInt pg g ++ [' '] ++ showInt pb b :=
    trim_append _ _ (by simp [isspace]) (by simp) (showInt_nonspace pb b) (showInt_ne_nil pb b)
  have hd : dispatch (['C', 'O', 'L', 'O', 'R', ' '] ++ showInt pr r ++ [' '] ++ showInt pg g
        ++ [' '] ++ showInt pb b)
        (received (['C', 'O', 'L', 'O', 'R', ' '] ++ showInt pr r ++ [' '] ++ showInt pg g
        ++ [' '] ++ showInt pb b) w)
      = (['O', 'K'], setStaticColor (clamp r 0 255).toNat (clamp g 0 255).toNat
          (clamp b 0 255).toNat (received (['C', 'O', 'L', 'O', 'R', ' '] ++ showInt pr r
            ++ [' '] ++ showInt pg g ++ [' '] ++ showInt pb b) w)) := by
    have := dispatch_color (showInt pr r ++ [' '] ++ showInt pg g ++ [' '] ++ showInt pb b)
      (received (['C', 'O', 'L', 'O', 'R', ' '] ++ showInt pr r ++ [' '] ++ showInt pg g
        ++ [' '] ++ showInt pb b) w)
    simp only [← List.append_assoc] at this
    have h16 : ∀ x : Int, -2 ^ 15 ≤ x ∧ x < 2 ^ 15 → x.natAbs < 10 ^ 254 := by
      intro x hx
      have : x.natAbs < 10 ^ 5 := by omega
      exact lt_of_lt_of_le this (Nat.pow_le_pow_right (by norm_num) (by norm_num))
    rw [this, sscanfColor_three _ _ _ _ _ _ (h16 r hr) (h16 g hg) (h16 b hb)]
    simp only [toSigned_of_range 16 (by norm_num) r (by simpa using hr.1) (by simpa using hr.2),
      toSigned_of_range 16 (by norm_num) g (by simpa using hg.1) (by simpa using hg.2),
      toSigned_of_range 16 (by norm_num) b (by simpa using hb.1) (by simpa using hb.2),
      constrain_eq_clamp, toUint8_clamp]
  rw [handleCommand_eq _ _ _ (by rw [htrim]; simp), htrim, hd]
  have h := respond_display rs (['O', 'K'], setStaticColor (clamp r 0 255).toNat
    (clamp g 0 255).toNat (clamp b 0 255).toNat (received (['C', 'O', 'L', 'O', 'R', ' ']
      ++ showInt pr r ++ [' '] ++ showInt pg g ++ [' '] ++ showInt pb b) w))
  rw [setStaticColor_display] at h
  refine ⟨congrArg (fun d => d.2.1) h, congrArg (fun d => d.1) h, ?_⟩
  rintro ch rfl
  rw [respond_out, setStaticColor_out, received_out]
  simp

/-- C2 at `COLOR 300 -5 128`: the colour becomes `(255, 0, 128)`. -/
theorem color_sets_clamped_witness :
    (handleCommand (colorLine false false false 300 (-5) 128) (some Channel.bluetooth)
      World.initial).staticColor
      = ((clamp 300 0 255).toNat, (clamp (-5) 0 255).toNat, (clamp 128 0 255).toNat) :=
  (color_sets_clamped World.initial false false false 300 (-5) 128 (by norm_num) (by norm_num)
    (by norm_num) (some Channel.bluetooth)).1

/-- C2 as stated fails outside the range of `int`: `65636` is `2 ^ 16 + 100`; the line
`COLOR 65636 0 0` stores the colour `(100, 0, 0)`, and `clamp 65636 0 255` is 255. -/
theorem color_beyond_int :
    colorLine false false false 65636 0 0
        = ['C', 'O', 'L', 'O', 'R', ' ', '6', '5', '6', '3', '6', ' ', '0', ' ', '0']
    ∧ (handleCommand ['C', 'O', 'L', 'O', 'R', ' ', '6', '5', '6', '3', '6', ' ', '0', ' ', '0']
        (some Channel.bluetooth) World.initial).staticColor = (100, 0, 0)
    ∧ (clamp 65636 0 255).toNat = 255
    ∧ (handleCommand (colorLine false false false 65636 0 0) (some Channel.bluetooth)
        World.initial).staticColor
      ≠ ((clamp 65636 0 255).toNat, (clamp 0 0 255).toNat, (clamp 0 0 255).toNat) := by
  have h : colorLine false false false 65636 0 0
      = ['C', 'O', 'L', 'O', 'R', ' ', '6', '5', '6', '3', '6', ' ', '0', ' ', '0'] := by
    simp [colorLine, showInt, decimal, decimalDigits]
    decide
  refine ⟨h, by decide, by decide, ?_⟩
  rw [h]
  decide

/-! ## C3: the token `#RRGGBB` -/

/-- C3: for every token made of `#` and six hexadecimal digits, in either letter case,
`handleCommand` sets `staticColor` to the three bytes `(RR, GG, BB)`, sets the mode to
`Static`, and the response stream receives the status line `OK`. -/
theorem hex_sets_colour (w : World) (c1 c2 c3 c4 c5 c6 : Char) (h1 : isxdigit c1 = true)
    (h2 : isxdigit c2 = true) (h3 : isxdigit c3 = true) (h4 : isxdigit c4 = true)
    (h5 : isxdigit c5 = true) (h6 : isxdigit c6 = true) (rs : Option Channel) :
    (handleCommand ['#', c1, c2, c3, c4, c5, c6] rs w).staticColor
      = (hexByte c1 c2, hexByte c3 c4, hexByte c5 c6)
    ∧ (handleCommand ['#', c1, c2, c3, c4, c5, c6] rs w).currentMode = AnimationMode.Static
    ∧ ∀ ch, rs = some ch →
        (handleCommand ['#', c1, c2, c3, c4, c5, c6] rs w).out ch
          = w.out ch ++ diagnostics ch ['#', c1, c2, c3, c4, c5, c6] false
              ++ ['O', 'K', '\r', '\n'] := by
  obtain ⟨-, b1, -⟩ := isxdigit_facts h1
  obtain ⟨-, b2, -⟩ := isxdigit_facts h2
  obtain ⟨-, b3, -⟩ := isxdigit_facts h3
  obtain ⟨-, b4, -⟩ := isxdigit_facts h4
  obtain ⟨-, b5, -⟩ := isxdigit_facts h5
  obtain ⟨-, b6, s6, -⟩ := isxdigit_facts h6
  have htrim : trim ['#', c1, c2, c3, c4, c5, c6] = ['#', c1, c2, c3, c4, c5, c6] :=
    trim_eq_self _ (by simp [isspace]) (by simpa using s6)
  rw [handleCommand_eq _ _ _ (by rw [htrim]; simp), htrim, dispatch_hex,
    strtoul16_six c1 c2 c3 c4 c5 c6 h1 h2 h3 h4 h5 h6]
  have hR : (hexByte c1 c2 * 65536 + hexByte c3 c4 * 256 + hexByte c5 c6) / 65536 % 256
      = hexByte c1 c2 := by simp only [hexByte]; omega
  have hG : (hexByte c1 c2 * 65536 + hexByte c3 c4 * 256 + hexByte c5 c6) / 256 % 256
      = hexByte c3 c4 := by simp only [hexByte]; omega
  have hB : (hexByte c1 c2 * 65536 + hexByte c3 c4 * 256 + hexByte c5 c6) % 256
      = hexByte c5 c6 := by simp only [hexByte]; omega
  rw [hR, hG, hB]
  have h := respond_display rs (['O', 'K'], setStaticColor (hexByte c1 c2) (hexByte c3 c4)
    (hexByte c5 c6) (received ['#', c1, c2, c3, c4, c5, c6] w))
  rw [setStaticColor_display] at h
  refine ⟨congrArg (fun d => d.2.1) h, congrArg (fun d => d.1) h, ?_⟩
  rintro ch rfl
  rw [respond_out, setStaticColor_out, received_out]
  simp

/-- C3 at `#FF00FF` and at `#1a2B3c`: the colours `(255, 0, 255)` and `(26, 43, 60)`. -/
theorem hex_sets_colour_witness :
    (handleCommand ['#', 'F', 'F', '0', '0', 'F', 'F'] (some Channel.bluetooth)
      World.initial).staticColor = (255, 0, 255)
    ∧ (handleCommand ['#', '1', 'a', '2', 'B', '3', 'c'] (some Channel.serial)
      World.initial).staticColor = (26, 43, 60) :=
  ⟨(hex_sets_colour World.initial 'F' 'F' '0' '0' 'F' 'F' (by decide) (by decide) (by decide)
      (by decide) (by decide) (by decide) (some Channel.bluetooth)).1,
   (hex_sets_colour World.initial '1' 'a' '2' 'B' '3' 'c' (by decide) (by decide) (by decide)
      (by decide) (by decide) (by decide) (some Channel.serial)).1⟩

/-! ## C4: `COLOR` with fewer than three integers -/

/-- C4: for every line that starts with `COLOR ` and from which the scan `COLOR %d %d %d`
reads fewer than three integers, `handleCommand` leaves the display state and the strip
unchanged (nothing is rendered), and the response stream receives the status line `ERR` (on
the wired link after the diagnostic text). -/
theorem color_too_few_err (w : World) (rest : List Char) (rs : Option Channel)
    (hfew : (sscanfColor (['C', 'O', 'L', 'O', 'R', ' '] ++ rest)).1 < 3) :
    (handleCommand (['C', 'O', 'L', 'O', 'R', ' '] ++ rest) rs w).display = w.display
    ∧ (handleCommand (['C', 'O', 'L', 'O', 'R', ' '] ++ rest) rs w).strip = w.strip
    ∧ ∀ ch, rs = some ch → ∃ u : Bool,
        (handleCommand (['C', 'O', 'L', 'O', 'R', ' '] ++ rest) rs w).out ch
          = w.out ch ++ diagnostics ch (trim (['C', 'O', 'L', 'O', 'R', ' '] ++ rest)) u
              ++ ['E', 'R', 'R', '\r', '\n'] := by
  rw [← sscanfColor_trim] at hfew
  obtain ⟨y, hy⟩ := trim_keep_front ['C', 'O', 'L', 'O', 'R'] (' ' :: rest) (by simp)
    (by simp [isspace]) (by simp [isspace])
  have e : ['C', 'O', 'L', 'O', 'R', ' '] ++ rest = ['C', 'O', 'L', 'O', 'R'] ++ ' ' :: rest :=
    rfl
  rw [e] at hfew ⊢
  rw [hy] at hfew
  rw [handleCommand_eq _ _ _ (by rw [hy]; simp), hy]
  obtain ⟨u, hu⟩ := dispatch_color_few y (received (['C', 'O', 'L', 'O', 'R'] ++ y) w) hfew
  rw [hu]
  refine ⟨?_, ?_, ?_⟩
  · rw [respond_display]
    cases u
    · rfl
    · exact println_display _ _ _
  · rw [respond_strip]
    cases u
    · rfl
    · exact println_strip _ _ _
  · rintro ch rfl
    refine ⟨u, ?_⟩
    rw [respond_out]
    cases u <;> cases ch <;> simp [println, print, received, World.out, diagnostics, unknownNote]

/-- C4 at `COLOR 10 20`, from the state after `#FF00FF`: the display state stays. -/
theorem color_too_few_err_witness :
    (handleCommand (['C', 'O', 'L', 'O', 'R', ' '] ++ ['1', '0', ' ', '2', '0'])
        (some Channel.bluetooth)
        (handleCommand ['#', 'F', 'F', '0', '0', 'F', 'F'] none World.initial)).display
      = (handleCommand ['#', 'F', 'F', '0', '0', 'F', 'F'] none World.initial).display :=
  (color_too_few_err (handleCommand ['#', 'F', 'F', '0', '0', 'F', 'F'] none World.initial)
    ['1', '0', ' ', '2', '0'] (some Channel.bluetooth) (by decide)).1

/-! ## C5: unknown commands -/

/-- C5: for every line that is not blank and whose trimmed text is none of `OFF` and
`RAINBOW` (in any letter case), a seven character token starting with `#`, a text starting
with `COLOR ` or a text starting with `BRIGHT `, `handleCommand` leaves the display state and
the strip unchanged, and the response stream receives the status line `ERR` (on the wired
link after the diagnostic echo and the note `Unknown command.`). -/
theorem unknown_command_err (w : World) (line : List Char) (rs : Option Channel)
    (hblank : trim line ≠ [])
    (hoff : (trim line).map tolower ≠ ['o', 'f', 'f'])
    (hrainbow : (trim line).map tolower ≠ ['r', 'a', 'i', 'n', 'b', 'o', 'w'])
    (hhex : ¬ ((trim line).head? = some '#' ∧ (trim line).length = 7))
    (hcolor : ∀ rest, trim line ≠ ['C', 'O', 'L', 'O', 'R', ' '] ++ rest)
    (hbright : ∀ rest, trim line ≠ ['B', 'R', 'I', 'G', 'H', 'T', ' '] ++ rest) :
    (handleCommand line rs w).display = w.display
    ∧ (handleCommand line rs w).strip = w.strip
    ∧ ∀ ch, rs = some ch →
        (handleCommand line rs w).out ch
          = w.out ch ++ diagnostics ch (trim line) true ++ ['E', 'R', 'R', '\r', '\n'] := by
  rw [handleCommand_eq _ _ _ hblank, dispatch_unknown _ _ hoff hrainbow hhex hcolor hbright]
  refine ⟨?_, ?_, ?_⟩
  · rw [respond_display, println_display, received_display]
  · rw [respond_strip, println_strip, received_strip]
  · rintro ch rfl
    rw [respond_out]
    cases ch <;> simp [println, print, received, World.out, diagnostics, unknownNote]

/-- C5 at the line `HELLO`, from the state after `#FF00FF`: the display state stays. -/
theorem unknown_command_err_witness :
    (handleCommand ['H', 'E', 'L', 'L', 'O'] (some Channel.serial)
        (handleCommand ['#', 'F', 'F', '0', '0', 'F', 'F'] none World.initial)).display
      = (handleCommand ['#', 'F', 'F', '0', '0', 'F', 'F'] none World.initial).display :=
  (unknown_command_err (handleCommand ['#', 'F', 'F', '0', '0', 'F', 'F'] none World.initial)
    ['H', 'E', 'L', 'L', 'O'] (some Channel.serial) (by decide) (by decide) (by decide)
    (by decide)
    (fun rest h => by
      have e : trim ['H', 'E', 'L', 'L', 'O'] = ['H', 'E', 'L', 'L', 'O'] := by decide
      rw [e] at h
      simp at h)
    (fun rest h => by
      have e : trim ['H', 'E', 'L', 'L', 'O'] = ['H', 'E', 'L', 'L', 'O'] := by decide
      rw [e] at h
      simp at h)).1

/-! ## C6: `OFF` -/

/-- C6: from every state, handling `OFF` ends in mode `Static` with `staticColor` `(0, 0, 0)`
and the response stream receives the status line `OK`; hence the sequence `OFF`, `RAINBOW`,
`OFF`, with any scheduler ticks in between, ends in mode `Static` with colour `(0, 0, 0)`,
and scheduler ticks after it leave that display state as it is. -/
theorem off_ends_static_black (w : World) (rs1 rs2 rs3 : Option Channel)
    (first second after : List Nat) :
    ((handleCommand ['O', 'F', 'F'] rs1 w).currentMode = AnimationMode.Static
      ∧ (handleCommand ['O', 'F', 'F'] rs1 w).staticColor = (0, 0, 0)
      ∧ ∀ ch, rs1 = some ch →
          (handleCommand ['O', 'F', 'F'] rs1 w).out ch
            = w.out ch ++ diagnostics ch ['O', 'F', 'F'] false ++ ['O', 'K', '\r', '\n'])
    ∧ (offRainbowOff rs1 rs2 rs3 first second w).currentMode = AnimationMode.Static
    ∧ (offRainbowOff rs1 rs2 rs3 first second w).staticColor = (0, 0, 0)
    ∧ (ticks after (offRainbowOff rs1 rs2 rs3 first second w)).display
        = (offRainbowOff rs1 rs2 rs3 first second w).display := by
  unfold offRainbowOff
  refine ⟨off_result w rs1, (off_result _ rs3).1, (off_result _ rs3).2.1, ?_⟩
  have hs := (off_result (ticks second (handleCommand ['R', 'A', 'I', 'N', 'B', 'O', 'W'] rs2
          (ticks first (handleCommand ['O', 'F', 'F'] rs1 w)))) rs3).1
  generalize handleCommand ['O', 'F', 'F'] rs3 _ = v at hs ⊢
  induction after generalizing v with
  | nil => rfl
  | cons t ts ih =>
    have : tick t v = v := by simp [tick, hs]
    simp only [ticks, List.foldl_cons, this]
    exact ih v hs

/-! ## C7: the framer keeps the first 48 characters -/

/-- C7: for every sequence of bytes none of which is `\n` or `\r`, polling these bytes and
then one `\n` from an empty buffer calls the line handler exactly once, on the first
`min k 48` bytes, and leaves the buffer empty; this holds for every line handler, and so for
`handleCommand`. -/
theorem pollStream_keeps_first_48 (bs : List Char) (hbs : ∀ c ∈ bs, c ≠ '\n' ∧ c ≠ '\r') :
    (∀ (σ : Type) (handle : List Char → σ → σ) (w : σ),
      pollStreamWith handle (bs ++ ['\n']) [] w = ([], handle (bs.take 48) w))
    ∧ (∀ (rs : Option Channel) (w : World),
      pollStream (bs ++ ['\n']) [] rs w = ([], handleCommand (bs.take 48) rs w))
    ∧ (bs.take 48).length = min bs.length 48 := by
  have key : ∀ (σ : Type) (handle : List Char → σ → σ) (w : σ),
      pollStreamWith handle (bs ++ ['\n']) [] w = ([], handle (bs.take 48) w) := by
    intro σ handle w
    rw [pollStreamWith_fill handle bs ['\n'] hbs [] (by simp) w]
    simp [pollStreamWith]
  refine ⟨key, fun rs w => key World _ w, ?_⟩
  simp [Nat.min_comm]

/-- C7 with sixty characters: the line handed over is the first 48 of them. -/
theorem pollStream_keeps_first_48_witness :
    pollStream (List.replicate 60 'a' ++ ['\n']) [] none World.initial
      = ([], handleCommand (List.replicate 48 'a') none World.initial) :=
  (pollStream_keeps_first_48 (List.replicate 60 'a')
    (by intro c hc; rw [List.eq_of_mem_replicate hc]; decide)).2.1 none World.initial

/-! ## C8: the status line goes to the originating channel only -/

/-- C8: for every command line (a text without `\n`), handled with the wireless channel as
origin, the text added to the output of the wired channel holds no status line, the status
line `OK` or `ERR` being added to the wireless output; handled with the wired channel as
origin, the output of the wireless channel is unchanged, the status line following the
diagnostic text on the wired output. -/
theorem status_only_to_origin (w : World) (line : List Char) (hline : '\n' ∉ line) :
    (∃ added, (handleCommand line (some Channel.bluetooth) w).serialOut = w.serialOut ++ added
        ∧ ∀ l ∈ linesOf added, l ≠ ['O', 'K', '\r'] ∧ l ≠ ['E', 'R', 'R', '\r'])
    ∧ (handleCommand line (some Channel.serial) w).bluetoothOut = w.bluetoothOut
    ∧ (trim line ≠ [] → ∃ status, (status = ['O', 'K'] ∨ status = ['E', 'R', 'R'])
        ∧ (handleCommand line (some Channel.bluetooth) w).bluetoothOut
            = w.bluetoothOut ++ status ++ ['\r', '\n']
        ∧ ∃ u, (handleCommand line (some Channel.serial) w).serialOut
            = w.serialOut ++ diagnostics Channel.serial (trim line) u ++ status
                ++ ['\r', '\n']) := by
  by_cases hblank : trim line = []
  · have hnop : ∀ rs, handleCommand line rs w = w := by
      intro rs
      unfold handleCommand
      split
      · rfl
      · simp [hblank]
    rw [hnop, hnop]
    exact ⟨⟨[], by simp, by decide⟩, rfl, fun h => absurd hblank h⟩
  · obtain ⟨u, h1, h2, h3⟩ := dispatch_outputs (trim line) (received (trim line) w)
    have hcmd : '\n' ∉ trim line := fun h => hline (mem_trim h)
    rw [handleCommand_eq _ _ _ hblank, handleCommand_eq _ _ _ hblank]
    refine ⟨⟨diagnostics Channel.serial (trim line) u, ?_, diagnostics_no_status _ hcmd u⟩, ?_,
      fun _ => ⟨(dispatch (trim line) (received (trim line) w)).1, h3, ?_, u, ?_⟩⟩
    · simp only [respond, println, print, h1]
      cases u <;> simp [received, println, print, diagnostics, unknownNote]
    · simp only [respond, println, print, h2]
      rfl
    · simp only [respond, println, print, h2]
      simp [received, println, print]
    · simp only [respond, println, print, h1]
      cases u <;> simp [received, println, print, diagnostics, unknownNote]

/-- C8 at the line `OFF`: from the wired channel it adds nothing to the wireless output. -/
theorem status_only_to_origin_witness :
    (handleCommand ['O', 'F', 'F'] (some Channel.serial) (setup World.initial)).bluetoothOut
      = (setup World.initial).bluetoothOut :=
  (status_only_to_origin (setup World.initial) ['O', 'F', 'F'] (by decide)).2.1

/-! ## C9: one scheduler tick -/

/-- C9: in every state in `Rainbow` mode and for every time `now`, one scheduler tick either
has no effect at all, when the `unsigned long` difference `now - lastRainbowUpdate` is below
40, or pushes exactly one frame, sets `rainbowOffset` to `(rainbowOffset + 1) % 256` and
`lastRainbowUpdate` to `now`, whatever the elapsed time; the difference is the ordinary one
when `lastRainbowUpdate ≤ now < 2 ^ 32`. -/
theorem tick_paces_one_frame (w : World) (now : Nat)
    (hmode : w.currentMode = AnimationMode.Rainbow) :
    (usub32 now w.lastRainbowUpdate < 40 → tick now w = w)
    ∧ (¬ usub32 now w.lastRainbowUpdate < 40 →
        (∃ pixels, (tick now w).strip.shown = w.strip.shown ++ [(pixels, w.currentBrightness)])
        ∧ (tick now w).rainbowOffset = (w.rainbowOffset + 1) % 256
        ∧ (tick now w).lastRainbowUpdate = now
        ∧ (tick now w).currentMode = AnimationMode.Rainbow
        ∧ (tick now w).staticColor = w.staticColor
        ∧ (tick now w).currentBrightness = w.currentBrightness)
    ∧ (w.lastRainbowUpdate ≤ now → now < 2 ^ 32 →
        usub32 now w.lastRainbowUpdate = now - w.lastRainbowUpdate) := by
  have ht : tick now w = updateRainbow now w := by simp [tick, hmode]
  rw [ht]
  refine ⟨fun h => updateRainbow_idle now w h, fun h => ?_, usub32_of_le now _⟩
  obtain ⟨h1, h2, h3, h4, h5, h6, -⟩ := updateRainbow_due now w h
  exact ⟨h1, h2, h3, h4.trans hmode, h5, h6⟩

/-- C9 one second after a start of the rainbow: the phase advances by one, not more. -/
theorem tick_paces_one_frame_witness :
    (tick 1000 (startRainbow World.initial)).rainbowOffset = 1
      ∧ (tick 1000 (startRainbow World.initial)).lastRainbowUpdate = 1000 :=
  ⟨((tick_paces_one_frame (startRainbow World.initial) 1000 rfl).2.1 (by decide)).2.1,
   ((tick_paces_one_frame (startRainbow World.initial) 1000 rfl).2.1 (by decide)).2.2.1⟩

/-! ## C10: the rainbow frames of a run -/

/-- C10, amended: over every run of the controller from the state after `setup`, with
non-decreasing tick times, the phases of any two consecutive rendered rainbow frames differ
by exactly 1 modulo 256, and two rainbow frames with no `RAINBOW` command handled between
them are at least 40 ms apart. -/
theorem rainbow_frames_of_run (steps : List Step)
    (hmono : List.Pairwise (fun a b => a ≤ b) (tickTimes steps)) :
    List.Chain' NextPhase (frames (run steps (setup World.initial)).history)
    ∧ List.Chain' Spaced (run steps (setup World.initial)).history := by
  have hh : (setup World.initial).history = [] := rfl
  have h0 : RunInv (setup World.initial) 0 :=
    ⟨by rw [hh]; exact List.chain'_nil, by rw [hh]; exact List.chain'_nil,
      by intro t p h; rw [hh] at h; simp at h,
      by intro f hf; rw [hh] at hf; simp [frames] at hf, Nat.le_refl 0⟩
  obtain ⟨hi, h⟩ := runInv_run steps (setup World.initial) 0 h0
    (fun t _ => Nat.zero_le t) hmono
  exact ⟨h.phases, h.spaced⟩

/-- C10 on a run with ticks at 50, 60 and 95 ms after `RAINBOW`. -/
theorem rainbow_frames_of_run_witness :
    List.Chain' NextPhase (frames (run
      [Step.command ['R', 'A', 'I', 'N', 'B', 'O', 'W'] (some Channel.bluetooth), Step.tick 50,
        Step.tick 60, Step.tick 95] (setup World.initial)).history)
    ∧ List.Chain' Spaced (run
      [Step.command ['R', 'A', 'I', 'N', 'B', 'O', 'W'] (some Channel.bluetooth), Step.tick 50,
        Step.tick 60, Step.tick 95] (setup World.initial)).history :=
  rainbow_frames_of_run _ (by decide)

/-- C10 as stated fails when `RAINBOW` is sent again: in the run `RAINBOW`, tick at 50 ms,
`RAINBOW`, tick at 60 ms, the tick times do not decrease and the rendered rainbow frames are
those at 50 ms (phase 0) and at 60 ms (phase 1), which are 10 ms apart: consecutive frames
are not all a full interval apart. -/
theorem rainbow_restart_frames :
    List.Pairwise (fun a b => a ≤ b) (tickTimes
      [Step.command ['R', 'A', 'I', 'N', 'B', 'O', 'W'] (some Channel.bluetooth), Step.tick 50,
        Step.command ['R', 'A', 'I', 'N', 'B', 'O', 'W'] (some Channel.bluetooth), Step.tick 60])
    ∧ frames (run
      [Step.command ['R', 'A', 'I', 'N', 'B', 'O', 'W'] (some Channel.bluetooth), Step.tick 50,
        Step.command ['R', 'A', 'I', 'N', 'B', 'O', 'W'] (some Channel.bluetooth), Step.tick 60]
      (setup World.initial)).history = [(50, 0), (60, 1)]
    ∧ ¬ List.Chain' FullInterval (frames (run
      [Step.command ['R', 'A', 'I', 'N', 'B', 'O', 'W'] (some Channel.bluetooth), Step.tick 50,
        Step.command ['R', 'A', 'I', 'N', 'B', 'O', 'W'] (some Channel.bluetooth), Step.tick 60]
      (setup World.initial)).history) := by
  have h : frames (run
      [Step.command ['R', 'A', 'I', 'N', 'B', 'O', 'W'] (some Channel.bluetooth), Step.tick 50,
        Step.command ['R', 'A', 'I', 'N', 'B', 'O', 'W'] (some Channel.bluetooth), Step.tick 60]
      (setup World.initial)).history = [(50, 0), (60, 1)] := by
    decide
  refine ⟨by decide, h, ?_⟩
  rw [h]
  simp [FullInterval, RAINBOW_INTERVAL_MS]

/-! ## C11: the first tick after `RAINBOW` -/

theorem usub32_zero (now : Nat) : usub32 now 0 = now % 2 ^ 32 := by
  unfold usub32
  norm_num

theorem handleCommand_keyword (line cmd : List Char) (rs : Option Channel) (w : World)
    (h : trim line = cmd) (hne : cmd ≠ []) :
    handleCommand line rs w = respond rs (dispatch cmd (received cmd w)) := by
  subst h
  exact handleCommand_eq line rs w hne

theorem startRainbow_fields (w : World) :
    (startRainbow w).currentMode = AnimationMode.Rainbow
    ∧ (startRainbow w).lastRainbowUpdate = 0
    ∧ (startRainbow w).strip = w.strip
    ∧ ∀ ch, (startRainbow w).out ch = w.out ch := by
  refine ⟨rfl, rfl, rfl, fun ch => ?_⟩
  cases ch <;> rfl

theorem rainbow_result (w : World) (rs : Option Channel) :
    (handleCommand ['R', 'A', 'I', 'N', 'B', 'O', 'W'] rs w).currentMode
        = AnimationMode.Rainbow
    ∧ (handleCommand ['R', 'A', 'I', 'N', 'B', 'O', 'W'] rs w).lastRainbowUpdate = 0
    ∧ (handleCommand ['R', 'A', 'I', 'N', 'B', 'O', 'W'] rs w).strip = w.strip
    ∧ ∀ ch, rs = some ch →
        (handleCommand ['R', 'A', 'I', 'N', 'B', 'O', 'W'] rs w).out ch
          = w.out ch ++ diagnostics ch ['R', 'A', 'I', 'N', 'B', 'O', 'W'] false
              ++ ['O', 'K', '\r', '\n'] := by
  rw [handleCommand_keyword _ _ rs w (by decide : trim ['R', 'A', 'I', 'N', 'B', 'O', 'W']
    = ['R', 'A', 'I', 'N', 'B', 'O', 'W']) (by simp), dispatch_rainbow]
  have hd := respond_display rs (['O', 'K'],
    startRainbow (received ['R', 'A', 'I', 'N', 'B', 'O', 'W'] w))
  refine ⟨congrArg (fun d => d.1) hd, congrArg (fun d => d.2.2.2.2) hd, ?_, ?_⟩
  · rw [respond_strip]
    rfl
  · rintro ch rfl
    rw [respond_out, (startRainbow_fields _).2.2.2, received_out]
    simp

/-- C11, as the code has it: after `RAINBOW` from any state the mode is `Rainbow`, the
response stream receives the status line `OK` and `lastRainbowUpdate` is 0; the next
scheduler tick renders one frame when `now` (as an `unsigned long`) is at least 40, and
renders nothing when `now` is below 40. -/
theorem rainbow_first_tick (w : World) (rs : Option Channel) (now : Nat) :
    (handleCommand ['R', 'A', 'I', 'N', 'B', 'O', 'W'] rs w).currentMode
        = AnimationMode.Rainbow
    ∧ (∀ ch, rs = some ch →
        (handleCommand ['R', 'A', 'I', 'N', 'B', 'O', 'W'] rs w).out ch
          = w.out ch ++ diagnostics ch ['R', 'A', 'I', 'N', 'B', 'O', 'W'] false
              ++ ['O', 'K', '\r', '\n'])
    ∧ (40 ≤ now % 2 ^ 32 →
        ∃ pixels, (tick now (handleCommand ['R', 'A', 'I', 'N', 'B', 'O', 'W'] rs w)).strip.shown
          = w.strip.shown ++ [(pixels, w.currentBrightness)])
    ∧ (now % 2 ^ 32 < 40 →
        tick now (handleCommand ['R', 'A', 'I', 'N', 'B', 'O', 'W'] rs w)
          = handleCommand ['R', 'A', 'I', 'N', 'B', 'O', 'W'] rs w) := by
  obtain ⟨hm, hl, hs, ho⟩ := rainbow_result w rs
  have hb : (handleCommand ['R', 'A', 'I', 'N', 'B', 'O', 'W'] rs w).currentBrightness
      = w.currentBrightness := by
    rw [handleCommand_keyword _ _ rs w (by decide : trim ['R', 'A', 'I', 'N', 'B', 'O', 'W']
      = ['R', 'A', 'I', 'N', 'B', 'O', 'W']) (by simp), dispatch_rainbow]
    exact congrArg (fun d => d.2.2.1) (respond_display rs (['O', 'K'],
      startRainbow (received ['R', 'A', 'I', 'N', 'B', 'O', 'W'] w)))
  have ht : tick now (handleCommand ['R', 'A', 'I', 'N', 'B', 'O', 'W'] rs w)
      = updateRainbow now (handleCommand ['R', 'A', 'I', 'N', 'B', 'O', 'W'] rs w) := by
    simp [tick, hm]
  refine ⟨hm, ho, fun h => ?_, fun h => ?_⟩
  · have hdue : ¬ usub32 now (handleCommand ['R', 'A', 'I', 'N', 'B', 'O', 'W'] rs
        w).lastRainbowUpdate < RAINBOW_INTERVAL_MS := by
      rw [hl, usub32_zero]
      unfold RAINBOW_INTERVAL_MS
      omega
    obtain ⟨⟨pixels, hp⟩, -⟩ := updateRainbow_due now _ hdue
    exact ⟨pixels, by rw [ht, hp, hs, hb]⟩
  · rw [ht]
    apply updateRainbow_idle
    rw [hl, usub32_zero]
    exact h

/-- C11 at 10 ms: the tick that follows `RAINBOW` renders nothing. -/
theorem rainbow_first_tick_witness :
    (tick 10 (handleCommand ['R', 'A', 'I', 'N', 'B', 'O', 'W'] (some Channel.bluetooth)
        (setup World.initial))).strip.shown
      = (handleCommand ['R', 'A', 'I', 'N', 'B', 'O', 'W'] (some Channel.bluetooth)
        (setup World.initial)).strip.shown :=
  congrArg (fun v => v.strip.shown)
    ((rainbow_first_tick (setup World.initial) (some Channel.bluetooth) 10).2.2.2 (by decide))

/-! ## C12: letter case of the keywords -/

theorem dispatch_off_any_case (cmd : List Char) (w : World)
    (h : cmd.map tolower = ['o', 'f', 'f']) :
    dispatch cmd w = (['O', 'K'], setStaticColor 0 0 0 w) := by
  have h1 : equalsIgnoreCase cmd ['O', 'F', 'F'] = true := by
    rw [equalsIgnoreCase_iff, h]
    decide
  simp only [dispatch, h1, if_true]

theorem dispatch_rainbow_any_case (cmd : List Char) (w : World)
    (h : cmd.map tolower = ['r', 'a', 'i', 'n', 'b', 'o', 'w']) :
    dispatch cmd w = (['O', 'K'], startRainbow w) := by
  have h0 : equalsIgnoreCase cmd ['O', 'F', 'F'] = false := by
    rw [Bool.eq_false_iff, Ne, equalsIgnoreCase_iff, h]
    decide
  have h1 : equalsIgnoreCase cmd ['R', 'A', 'I', 'N', 'B', 'O', 'W'] = true := by
    rw [equalsIgnoreCase_iff, h]
    decide
  simp only [dispatch, h0, h1, if_true, Bool.false_eq_true, if_false]

/-- C12, as the code has it: a line whose trimmed text is `OFF` or `RAINBOW` in any letter
case leaves the same display state as the upper-case keyword, with the status line `OK`;
the keywords `COLOR` and `BRIGHT` are matched in upper case only: `color 1 2 3` and
`bright 10` are answered with `ERR` and change nothing, where `COLOR 1 2 3` sets the colour
`(1, 2, 3)` and `BRIGHT 10` the brightness 10. -/
theorem keyword_letter_case (w : World) (line : List Char) (rs : Option Channel) :
    ((trim line).map tolower = ['o', 'f', 'f'] →
      (handleCommand line rs w).display = (handleCommand ['O', 'F', 'F'] rs w).display
      ∧ ∀ ch, rs = some ch → (handleCommand line rs w).out ch
          = w.out ch ++ diagnostics ch (trim line) false ++ ['O', 'K', '\r', '\n'])
    ∧ ((trim line).map tolower = ['r', 'a', 'i', 'n', 'b', 'o', 'w'] →
      (handleCommand line rs w).display
        = (handleCommand ['R', 'A', 'I', 'N', 'B', 'O', 'W'] rs w).display
      ∧ ∀ ch, rs = some ch → (handleCommand line rs w).out ch
          = w.out ch ++ diagnostics ch (trim line) false ++ ['O', 'K', '\r', '\n'])
    ∧ (handleCommand ['c', 'o', 'l', 'o', 'r', ' ', '1', ' ', '2', ' ', '3']
        (some Channel.bluetooth) World.initial).display = World.initial.display
    ∧ (handleCommand ['c', 'o', 'l', 'o', 'r', ' ', '1', ' ', '2', ' ', '3']
        (some Channel.bluetooth) World.initial).bluetoothOut = ['E', 'R', 'R', '\r', '\n']
    ∧ (handleCommand ['C', 'O', 'L', 'O', 'R', ' ', '1', ' ', '2', ' ', '3']
        (some Channel.bluetooth) World.initial).staticColor = (1, 2, 3)
    ∧ (handleCommand ['C', 'O', 'L', 'O', 'R', ' ', '1', ' ', '2', ' ', '3']
        (some Channel.bluetooth) World.initial).bluetoothOut = ['O', 'K', '\r', '\n']
    ∧ (handleCommand ['b', 'r', 'i', 'g', 'h', 't', ' ', '1', '0']
        (some Channel.bluetooth) World.initial).display = World.initial.display
    ∧ (handleCommand ['b', 'r', 'i', 'g', 'h', 't', ' ', '1', '0']
        (some Channel.bluetooth) World.initial).bluetoothOut = ['E', 'R', 'R', '\r', '\n']
    ∧ (handleCommand ['B', 'R', 'I', 'G', 'H', 'T', ' ', '1', '0']
        (some Channel.bluetooth) World.initial).currentBrightness = 10
    ∧ (handleCommand ['B', 'R', 'I', 'G', 'H', 'T', ' ', '1', '0']
        (some Channel.bluetooth) World.initial).bluetoothOut = ['O', 'K', '\r', '\n'] := by
  refine ⟨fun h => ?_, fun h => ?_, by decide, by decide, by decide, by decide, by decide,
    by decide, by decide, by decide⟩
  · have hne : trim line ≠ [] := by
      intro h0
      rw [h0] at h
      simp at h
    rw [handleCommand_eq line rs w hne, dispatch_off_any_case _ _ h,
      handleCommand_keyword ['O', 'F', 'F'] ['O', 'F', 'F'] rs w (by decide) (by simp),
      dispatch_off]
    refine ⟨?_, ?_⟩
    · rw [respond_display, respond_display, setStaticColor_display, setStaticColor_display]
      rfl
    · rintro ch rfl
      rw [respond_out, setStaticColor_out, received_out]
      simp
  · have hne : trim line ≠ [] := by
      intro h0
      rw [h0] at h
      simp at h
    rw [handleCommand_eq line rs w hne, dispatch_rainbow_any_case _ _ h,
      handleCommand_keyword ['R', 'A', 'I', 'N', 'B', 'O', 'W']
        ['R', 'A', 'I', 'N', 'B', 'O', 'W'] rs w (by decide) (by simp), dispatch_rainbow]
    refine ⟨?_, ?_⟩
    · rw [respond_display, respond_display]
      rfl
    · rintro ch rfl
      rw [respond_out, (startRainbow_fields _).2.2.2, received_out]
      simp

/-- C12 at the line `Rainbow`: the mode becomes `Rainbow` as for `RAINBOW`. -/
theorem keyword_letter_case_witness :
    (handleCommand ['R', 'a', 'i', 'n', 'b', 'o', 'w'] none World.initial).display
      = (handleCommand ['R', 'A', 'I', 'N', 'B', 'O', 'W'] none World.initial).display :=
  ((keyword_letter_case World.initial ['R', 'a', 'i', 'n', 'b', 'o', 'w'] none).2.1
    (by decide)).1

/-! ## C13: text after the three integers of `COLOR` -/

theorem sscanfColor_append_space_all (ws : List Char) (hws : ∀ c ∈ ws, isspace c = true)
    (y : List Char) :
    sscanfColor (['C', 'O', 'L', 'O', 'R'] ++ (y ++ ws))
      = sscanfColor (['C', 'O', 'L', 'O', 'R'] ++ y) := by
  simp only [sscanfColor, List.cons_append, List.nil_append, matchLiteral, if_true,
    List.append_eq, convInt_skip]
  rw [convInt_append_space ws hws]
  cases h1 : convInt y with
  | none => rfl
  | some p1 =>
    obtain ⟨r, s1⟩ := p1
    simp only [Option.map_some']
    rw [convInt_append_space ws hws]
    cases h2 : convInt s1 with
    | none => rfl
    | some p2 =>
      obtain ⟨g, s2⟩ := p2
      simp only [Option.map_some']
      rw [convInt_append_space ws hws]
      cases h3 : convInt s2 with
      | none => rfl
      | some p3 => rfl

theorem sscanfColor_three_tail (pr pg pb : Bool) (r g b : Int) (tail : List Char)
    (htail : ∀ c ∈ tail.head?, isdigit c = false) (hr : r.natAbs < 10 ^ 254)
    (hg : g.natAbs < 10 ^ 254) (hb : b.natAbs < 10 ^ 254) :
    sscanfColor (colorLine pr pg pb r g b ++ tail)
      = (3, toSigned 16 r, toSigned 16 g, toSigned 16 b) := by
  have e : colorLine pr pg pb r g b ++ tail
      = 'C' :: 'O' :: 'L' :: 'O' :: 'R' :: ' ' ::
          (showInt pr r ++ ' ' :: (showInt pg g ++ ' ' :: (showInt pb b ++ tail))) := by
    simp [colorLine]
  rw [e]
  simp only [sscanfColor, matchLiteral, if_true, List.dropWhile]
  have hsp : isspace ' ' = true := by decide
  simp only [hsp, showInt_head_nonspace, convInt_showInt _ _ _ (head_space_not_digit _) hr,
    convInt_showInt _ _ _ (head_space_not_digit _) hg,
    convInt_showInt _ _ tail htail hb, List.dropWhile]

theorem int16_natAbs (x : Int) (hx : -2 ^ 15 ≤ x ∧ x < 2 ^ 15) : x.natAbs < 10 ^ 254 := by
  have : x.natAbs < 10 ^ 5 := by omega
  exact lt_of_lt_of_le this (Nat.pow_le_pow_right (by norm_num) (by norm_num))

theorem trim_color_three (pr pg pb : Bool) (r g b : Int) (tail : List Char)
    (htail : ∀ c ∈ tail.head?, isdigit c = false) (hr : -2 ^ 15 ≤ r ∧ r < 2 ^ 15)
    (hg : -2 ^ 15 ≤ g ∧ g < 2 ^ 15) (hb : -2 ^ 15 ≤ b ∧ b < 2 ^ 15) :
    ∃ x, trim (colorLine pr pg pb r g b ++ tail) = ['C', 'O', 'L', 'O', 'R', ' '] ++ x
      ∧ sscanfColor (['C', 'O', 'L', 'O', 'R', ' '] ++ x) = (3, r, g, b) := by
  have hfull := sscanfColor_three_tail pr pg pb r g b tail htail (int16_natAbs r hr)
    (int16_natAbs g hg) (int16_natAbs b hb)
  rw [toSigned_of_range 16 (by norm_num) r (by simpa using hr.1) (by simpa using hr.2),
    toSigned_of_range 16 (by norm_num) g (by simpa using hg.1) (by simpa using hg.2),
    toSigned_of_range 16 (by norm_num) b (by simpa using hb.1) (by simpa using hb.2)] at hfull
  have eline : colorLine pr pg pb r g b ++ tail = ['C', 'O', 'L', 'O', 'R', ' ']
      ++ (showInt pr r ++ [' '] ++ showInt pg g ++ [' '] ++ showInt pb b ++ tail) := by
    simp [colorLine]
  rw [eline] at hfull ⊢
  obtain ⟨y, ws, hws, hsplit, htrim⟩ :=
    trim_color (showInt pr r ++ [' '] ++ showInt pg g ++ [' '] ++ showInt pb b ++ tail)
  have e2 : ['C', 'O', 'L', 'O', 'R', ' '] ++ (showInt pr r ++ [' '] ++ showInt pg g ++ [' ']
      ++ showInt pb b ++ tail) = ['C', 'O', 'L', 'O', 'R'] ++ (y ++ ws) := by
    rw [← hsplit]
    rfl
  rw [e2, sscanfColor_append_space_all ws hws y] at hfull
  cases y with
  | nil =>
    exfalso
    have h0 : (sscanfColor (['C', 'O', 'L', 'O', 'R'] ++ [])).1 = 0 := by decide
    rw [hfull] at h0
    exact absurd h0 (Nat.succ_ne_zero 2)
  | cons c y' =>
    have hc : c = ' ' := by
      have := congrArg List.head? hsplit
      simp at this
      exact this.symm
    subst hc
    exact ⟨y', htrim, hfull⟩

/-- C13, amended: for all integers `a`, `b`, `c` in the range of a 16-bit `int` and every
further text that does not start with a digit (a fourth integer as in `COLOR 1 2 3 4`, or
junk as in `COLOR 1 2 3x`), `handleCommand` accepts the line `COLOR a b c` followed by that
text: it ignores the further text, sets `staticColor` to the three clamped integers and the
mode to `Static`, and the response stream receives the status line `OK`. -/
theorem color_ignores_tail (w : World) (pr pg pb : Bool) (r g b : Int) (tail : List Char)
    (htail : ∀ c ∈ tail.head?, isdigit c = false)
    (hr : -2 ^ 15 ≤ r ∧ r < 2 ^ 15) (hg : -2 ^ 15 ≤ g ∧ g < 2 ^ 15)
    (hb : -2 ^ 15 ≤ b ∧ b < 2 ^ 15) (rs : Option Channel) :
    (handleCommand (colorLine pr pg pb r g b ++ tail) rs w).staticColor
      = ((clamp r 0 255).toNat, (clamp g 0 255).toNat, (clamp b 0 255).toNat)
    ∧ (handleCommand (colorLine pr pg pb r g b ++ tail) rs w).currentMode
      = AnimationMode.Static
    ∧ ∀ ch, rs = some ch →
        (handleCommand (colorLine pr pg pb r g b ++ tail) rs w).out ch
          = w.out ch ++ diagnostics ch (trim (colorLine pr pg pb r g b ++ tail)) false
              ++ ['O', 'K', '\r', '\n'] := by
  obtain ⟨x, htrim, hscan⟩ := trim_color_three pr pg pb r g b tail htail hr hg hb
  have hd : ∀ v : World, dispatch (['C', 'O', 'L', 'O', 'R', ' '] ++ x) v
      = (['O', 'K'], setStaticColor (clamp r 0 255).toNat (clamp g 0 255).toNat
          (clamp b 0 255).toNat v) := by
    intro v
    rw [dispatch_color, hscan]
    simp only [constrain_eq_clamp, toUint8_clamp]
  rw [handleCommand_eq _ _ _ (by rw [htrim]; simp), htrim, hd]
  have h := respond_display rs (['O', 'K'], setStaticColor (clamp r 0 255).toNat
    (clamp g 0 255).toNat (clamp b 0 255).toNat (received (['C', 'O', 'L', 'O', 'R', ' ']
      ++ x) w))
  rw [setStaticColor_display] at h
  refine ⟨congrArg (fun d => d.2.1) h, congrArg (fun d => d.1) h, ?_⟩
  rintro ch rfl
  rw [respond_out, setStaticColor_out, received_out]
  simp

/-- C13 at `COLOR 1 2 3` followed by ` 4`: the colour becomes `(1, 2, 3)`. -/
theorem color_ignores_tail_witness :
    (handleCommand (colorLine false false false 1 2 3 ++ [' ', '4']) (some Channel.bluetooth)
      World.initial).staticColor
      = ((clamp 1 0 255).toNat, (clamp 2 0 255).toNat, (clamp 3 0 255).toNat) :=
  (color_ignores_tail World.initial false false false 1 2 3 [' ', '4'] (by decide)
    (by norm_num) (by norm_num) (by norm_num) (some Channel.bluetooth)).1

/-- C13 as stated fails: `COLOR 1 2 3 4` and `COLOR 1 2 3x` are answered with `OK` and set the
colour `(1, 2, 3)`, from a state whose colour is `(0, 0, 0)`. -/
theorem color_four_accepted :
    World.initial.staticColor = (0, 0, 0)
    ∧ (handleCommand ['C', 'O', 'L', 'O', 'R', ' ', '1', ' ', '2', ' ', '3', ' ', '4']
        (some Channel.bluetooth) World.initial).staticColor = (1, 2, 3)
    ∧ (handleCommand ['C', 'O', 'L', 'O', 'R', ' ', '1', ' ', '2', ' ', '3', ' ', '4']
        (some Channel.bluetooth) World.initial).bluetoothOut = ['O', 'K', '\r', '\n']
    ∧ (handleCommand ['C', 'O', 'L', 'O', 'R', ' ', '1', ' ', '2', ' ', '3', 'x']
        (some Channel.bluetooth) World.initial).staticColor = (1, 2, 3)
    ∧ (handleCommand ['C', 'O', 'L', 'O', 'R', ' ', '1', ' ', '2', ' ', '3', 'x']
        (some Channel.bluetooth) World.initial).bluetoothOut = ['O', 'K', '\r', '\n']
    ∧ (handleCommand ['C', 'O', 'L', 'O', 'R', ' ', '1', ' ', '2', ' ', '3', ' ', '4']
        (some Channel.bluetooth) World.initial).display ≠ World.initial.display := by
  decide

/-! ## C14: the token `#` with six characters -/

theorem scanHex_stop (acc : Nat) (c : Char) (cs : List Char) (h : isxdigit c = false) :
    scanHex acc (c :: cs) = acc := by
  have hr : ¬ ((48 ≤ c.toNat ∧ c.toNat ≤ 57) ∨ (65 ≤ c.toNat ∧ c.toNat ≤ 70)
      ∨ (97 ≤ c.toNat ∧ c.toNat ≤ 102)) := by
    intro hx
    have : isxdigit c = true := by simpa [isxdigit, or_assoc] using hx
    rw [h] at this
    exact Bool.noConfusion this
  simp only [scanHex, digitOf]
  split_ifs <;> simp only [] <;> first | rfl | (split_ifs <;> first | rfl | omega)

theorem scanHex_run (cs : List Char) (acc : Nat) :
    scanHex acc cs
      = ((cs.takeWhile isxdigit).map hexValue).foldl (fun a d => a * 16 + d) acc := by
  induction cs generalizing acc with
  | nil => rfl
  | cons c cs ih =>
    cases h : isxdigit c
    · rw [scanHex_stop acc c cs h]
      simp [List.takeWhile, h]
    · rw [scanHex_cons acc c cs h, ih]
      simp [List.takeWhile, h]

theorem hexRun_bound (cs : List Char) (acc : Nat) :
    ((cs.takeWhile isxdigit).map hexValue).foldl (fun a d => a * 16 + d) acc
      < (acc + 1) * 16 ^ cs.length := by
  induction cs generalizing acc with
  | nil => simp
  | cons c cs ih =>
    cases h : isxdigit c
    · simp only [List.takeWhile, h, List.map_nil, List.foldl_nil, List.length_cons]
      have : 0 < 16 ^ (cs.length + 1) := by positivity
      nlinarith
    · obtain ⟨-, hv, -⟩ := isxdigit_facts h
      simp only [List.takeWhile, h, List.map_cons, List.foldl_cons, List.length_cons]
      refine lt_of_lt_of_le (ih _) ?_
      rw [pow_succ]
      have : 0 < 16 ^ cs.length := by positivity
      nlinarith

theorem strtoul16_run (c1 c2 c3 c4 c5 c6 : Char) (hs : isspace c1 = false) (hm : c1 ≠ '-')
    (hp : c1 ≠ '+') (hx : ¬ (c1 = '0' ∧ (c2 = 'x' ∨ c2 = 'X'))) :
    strtoul16 [c1, c2, c3, c4, c5, c6] = hexRunValue [c1, c2, c3, c4, c5, c6] := by
  have hbody : strtoulDigits false [c1, c2, c3, c4, c5, c6]
      = hexRunValue [c1, c2, c3, c4, c5, c6] := by
    unfold strtoulDigits
    have hmatch : (match [c1, c2, c3, c4, c5, c6] with
      | '0' :: 'x' :: t => t
      | '0' :: 'X' :: t => t
      | t => t) = [c1, c2, c3, c4, c5, c6] := by
      split
      · rename_i heq
        simp at heq
        exact absurd ⟨heq.1, Or.inl heq.2.1⟩ hx
      · rename_i heq
        simp at heq
        exact absurd ⟨heq.1, Or.inr heq.2.1⟩ hx
      · rfl
    have hb := hexRun_bound [c1, c2, c3, c4, c5, c6] 0
    simp only [hmatch, scanHex_run, Bool.false_eq_true, if_false]
    rw [if_neg]
    · rfl
    · simp only [List.length_cons, List.length_nil] at hb
      norm_num at hb ⊢
      omega
  simp only [strtoul16, List.dropWhile, hs]
  split
  · rename_i heq; simp at heq; exact absurd heq.1 hm
  · rename_i heq; simp at heq; exact absurd heq.1 hp
  · exact hbody

/-- C14, amended: for every line whose trimmed text is a token of seven characters that
begins with `#`, `handleCommand` sets the mode to `Static`, the response stream receives the
status line `OK` (never `ERR`), and the colour is made of the three low bytes of the value
that `strtoul` reads in base 16 from the six following characters; when these do not begin
with white space, a sign or `0x`, that value is the number written by the hexadecimal digits
before the first character that is not one (zero when the first character is not one). -/
theorem hash_token_value (w : World) (line : List Char) (c1 c2 c3 c4 c5 c6 : Char)
    (rs : Option Channel) (htoken : trim line = ['#', c1, c2, c3, c4, c5, c6]) :
    (handleCommand line rs w).currentMode = AnimationMode.Static
    ∧ (∀ ch, rs = some ch →
        (handleCommand line rs w).out ch
          = w.out ch ++ diagnostics ch ['#', c1, c2, c3, c4, c5, c6] false
              ++ ['O', 'K', '\r', '\n'])
    ∧ (handleCommand line rs w).staticColor = channels (strtoul16 [c1, c2, c3, c4, c5, c6])
    ∧ (isspace c1 = false → c1 ≠ '-' → c1 ≠ '+' → ¬ (c1 = '0' ∧ (c2 = 'x' ∨ c2 = 'X')) →
        (handleCommand line rs w).staticColor
          = channels (hexRunValue [c1, c2, c3, c4, c5, c6])) := by
  rw [handleCommand_keyword line _ rs w htoken (by simp), dispatch_hex]
  have h := respond_display rs (['O', 'K'],
    setStaticColor (strtoul16 [c1, c2, c3, c4, c5, c6] / 65536 % 256)
      (strtoul16 [c1, c2, c3, c4, c5, c6] / 256 % 256)
      (strtoul16 [c1, c2, c3, c4, c5, c6] % 256) (received ['#', c1, c2, c3, c4, c5, c6] w))
  rw [setStaticColor_display] at h
  have hcol := congrArg (fun d => d.2.1) h
  refine ⟨congrArg (fun d => d.1) h, ?_, hcol, fun hs hm hp hx => ?_⟩
  · rintro ch rfl
    rw [respond_out, setStaticColor_out, received_out]
    simp
  · rw [← strtoul16_run c1 c2 c3 c4 c5 c6 hs hm hp hx]
    exact hcol

/-- C14 at `#FFZZ00`: the value is `0xFF`, the colour `(0, 0, 255)`. -/
theorem hash_token_value_witness :
    (handleCommand ['#', 'F', 'F', 'Z', 'Z', '0', '0'] (some Channel.bluetooth)
      World.initial).staticColor = channels (hexRunValue ['F', 'F', 'Z', 'Z', '0', '0'])
    ∧ channels (hexRunValue ['F', 'F', 'Z', 'Z', '0', '0']) = (0, 0, 255) :=
  ⟨(hash_token_value World.initial ['#', 'F', 'F', 'Z', 'Z', '0', '0'] 'F' 'F' 'Z' 'Z' '0' '0'
      (some Channel.bluetooth) (by decide)).2.2.2 (by decide) (by decide) (by decide)
      (by decide), by decide⟩

/-- C14 as stated fails at `#FFZZ00`: reading `Z` as the digit 0 gives `0xFF0000` and the
colour `(255, 0, 0)`, and the code sets the colour `(0, 0, 255)`. -/
theorem hash_token_stops_at_junk :
    (handleCommand ['#', 'F', 'F', 'Z', 'Z', '0', '0'] (some Channel.bluetooth)
      World.initial).staticColor = (0, 0, 255)
    ∧ channels (hexRunValue ['F', 'F', '0', '0', '0', '0']) = (255, 0, 0)
    ∧ (handleCommand ['#', 'F', 'F', 'Z', 'Z', '0', '0'] (some Channel.bluetooth)
      World.initial).staticColor ≠ (255, 0, 0) := by
  decide

/-! ## C15: blank lines -/

theorem trim_blank (line : List Char) (h : ∀ c ∈ line, isspace c = true) : trim line = [] := by
  unfold trim
  have : line.dropWhile isspace = [] := by
    rw [List.dropWhile_eq_nil_iff]
    exact h
  rw [this]
  rfl

theorem handleCommand_blank (line : List Char) (rs : Option Channel) (w : World)
    (h : trim line = []) : handleCommand line rs w = w := by
  unfold handleCommand
  split
  · rfl
  · simp [h]

/-- C15: for every line that is empty or consists of white space only, `handleCommand`
returns the world as it was: display state, strip (nothing is rendered) and the output of
both streams are unchanged, whatever the response stream is. -/
theorem blank_line_noop (w : World) (line : List Char) (rs : Option Channel)
    (hblank : ∀ c ∈ line, isspace c = true) :
    handleCommand line rs w = w
    ∧ (handleCommand line rs w).display = w.display
    ∧ (handleCommand line rs w).strip = w.strip
    ∧ (handleCommand line rs w).serialOut = w.serialOut
    ∧ (handleCommand line rs w).bluetoothOut = w.bluetoothOut := by
  have h := handleCommand_blank line rs w (trim_blank line hblank)
  rw [h]
  exact ⟨rfl, rfl, rfl, rfl, rfl⟩

/-- C15 at the empty line and at a line of blanks, a tab and a carriage return. -/
theorem blank_line_noop_witness :
    handleCommand [] (some Channel.bluetooth) (setup World.initial) = setup World.initial
    ∧ handleCommand [' ', '\t', ' ', '\r'] (some Channel.serial) (setup World.initial)
        = setup World.initial :=
  ⟨(blank_line_noop (setup World.initial) [] (some Channel.bluetooth) (by simp)).1,
   (blank_line_noop (setup World.initial) [' ', '\t', ' ', '\r'] (some Channel.serial)
      (by decide)).1⟩

/-! ## C16 and C20: the colour wheel -/

set_option maxRecDepth 100000 in
theorem wheel_table : ∀ position, position < 256 →
    (wheelSegment (255 - position) = 0 →
        channels (wheel position)
          = (255 - 3 * wheelOffset (255 - position), 0, 3 * wheelOffset (255 - position)))
    ∧ (wheelSegment (255 - position) = 1 →
        channels (wheel position)
          = (0, 3 * wheelOffset (255 - position), 255 - 3 * wheelOffset (255 - position)))
    ∧ (wheelSegment (255 - position) = 2 →
        channels (wheel position)
          = (3 * wheelOffset (255 - position), 255 - 3 * wheelOffset (255 - position), 0))
    ∧ 3 * wheelOffset (255 - position) ≤ 255
    ∧ wheelOffset (255 - position) ≤ 85
    ∧ (wheelSegment (255 - position) ≠ 2 → wheelOffset (255 - position) ≤ 84) := by
  decide

set_option maxRecDepth 100000 in
theorem wheel_sums : ∀ position, position < 256 →
    (channels (wheel position)).1 + (channels (wheel position)).2.1
        + (channels (wheel position)).2.2 = 255
    ∧ ((channels (wheel position)).1 = 0 ∨ (channels (wheel position)).2.1 = 0
        ∨ (channels (wheel position)).2.2 = 0) := by
  decide

set_option maxRecDepth 100000 in
theorem wheel_steps : ∀ position, position < 256 →
    (channels (wheel position)).1 ≤ (channels (wheel ((position + 1) % 256))).1 + 3
    ∧ (channels (wheel ((position + 1) % 256))).1 ≤ (channels (wheel position)).1 + 3
    ∧ (channels (wheel position)).2.1 ≤ (channels (wheel ((position + 1) % 256))).2.1 + 3
    ∧ (channels (wheel ((position + 1) % 256))).2.1 ≤ (channels (wheel position)).2.1 + 3
    ∧ (channels (wheel position)).2.2 ≤ (channels (wheel ((position + 1) % 256))).2.2 + 3
    ∧ (channels (wheel ((position + 1) % 256))).2.2 ≤ (channels (wheel position)).2.2 + 3 := by
  decide

set_option maxRecDepth 100000 in
theorem segmentMembers_length :
    (segmentMembers 0).length = 85 ∧ (segmentMembers 1).length = 85
      ∧ (segmentMembers 2).length = 86
      ∧ ∀ p, p < 256 → wheelSegment p = 0 ∨ wheelSegment p = 1 ∨ wheelSegment p = 2 := by
  decide

/-- C16, amended: for every position in `0..255`, with `p = 255 - position`, `wheel` returns
`(255 - 3p, 0, 3p)` when `p < 85` (segment 0), `(0, 3q, 255 - 3q)` with `q = p - 85` when
`85 ≤ p < 170` (segment 1), and `(3q, 255 - 3q, 0)` with `q = p - 170` when `170 ≤ p`
(segment 2); the segments partition `0..255` and are 85, 85 and 86 wide; the offset within
the segment lies in `0..84` in segments 0 and 1 and in `0..85` in segment 2; no channel
exceeds 255; segment 0 starts at pure red, segment 1 at pure blue, segment 2 at pure green. -/
theorem wheel_segments (position : Nat) (h : position < 256) :
    (255 - position < 85 →
      channels (wheel position) = (255 - 3 * (255 - position), 0, 3 * (255 - position)))
    ∧ (85 ≤ 255 - position → 255 - position < 170 →
      channels (wheel position)
        = (0, 3 * (255 - position - 85), 255 - 3 * (255 - position - 85)))
    ∧ (170 ≤ 255 - position →
      channels (wheel position)
        = (3 * (255 - position - 170), 255 - 3 * (255 - position - 170), 0))
    ∧ (255 - position < 170 → wheelOffset (255 - position) ≤ 84)
    ∧ (170 ≤ 255 - position → wheelOffset (255 - position) ≤ 85)
    ∧ 3 * wheelOffset (255 - position) ≤ 255
    ∧ (segmentMembers 0).length = 85 ∧ (segmentMembers 1).length = 85
    ∧ (segmentMembers 2).length = 86
    ∧ (wheelSegment (255 - position) = 0 ∨ wheelSegment (255 - position) = 1
        ∨ wheelSegment (255 - position) = 2)
    ∧ channels (wheel 255) = (255, 0, 0) ∧ channels (wheel 170) = (0, 0, 255)
    ∧ channels (wheel 85) = (0, 255, 0) := by
  obtain ⟨t0, t1, t2, t3, t4, t5⟩ := wheel_table position h
  obtain ⟨s0, s1, s2, s3⟩ := segmentMembers_length
  refine ⟨fun hp => ?_, fun hp hq => ?_, fun hp => ?_, fun hp => ?_, fun _ => t4, t3, s0, s1, s2,
    s3 _ (by omega), by decide, by decide, by decide⟩
  · have hs : wheelSegment (255 - position) = 0 := by simp [wheelSegment, hp]
    have ho : wheelOffset (255 - position) = 255 - position := by simp [wheelOffset, hp]
    rw [← ho]
    exact t0 hs
  · have hs : wheelSegment (255 - position) = 1 := by
      simp only [wheelSegment]
      rw [if_neg (by omega), if_pos hq]
    have ho : wheelOffset (255 - position) = 255 - position - 85 := by
      simp only [wheelOffset]
      rw [if_neg (by omega), if_pos hq]
    rw [← ho]
    exact t1 hs
  · have hs : wheelSegment (255 - position) = 2 := by
      simp only [wheelSegment]
      rw [if_neg (by omega), if_neg (by omega)]
    have ho : wheelOffset (255 - position) = 255 - position - 170 := by
      simp only [wheelOffset]
      rw [if_neg (by omega), if_neg (by omega)]
    rw [← ho]
    exact t2 hs
  · apply t5
    simp only [wheelSegment, hp, if_true]
    split <;> decide

/-- C16 at position 200: `p = 55` lies in segment 0, the colour is `(90, 0, 165)`. -/
theorem wheel_segments_witness : channels (wheel 200) = (90, 0, 165) :=
  (wheel_segments 200 (by decide)).1 (by decide)

/-- C16 as stated fails at position 0: there `p = 255` lies in segment 2 with the offset
`q = 85`, which is not in `0..84`; segment 2 holds 86 inverted positions, not 85. -/
theorem wheel_offset_at_zero :
    wheelSegment (255 - 0) = 2 ∧ wheelOffset (255 - 0) = 85 ∧ ¬ wheelOffset (255 - 0) ≤ 84
    ∧ channels (wheel 0) = (3 * 85, 255 - 3 * 85, 0)
    ∧ (segmentMembers 2).length ≠ 85 := by
  refine ⟨by decide, by decide, by decide, by decide, ?_⟩
  rw [segmentMembers_length.2.2.1]
  decide

/-- C20: for every position in `0..255` the channels of the colour `wheel` returns add up to
255 and one of them is 0; `wheel 0` and `wheel 255` are both `(255, 0, 0)`; and the colours
at a position and at its cyclic successor differ by at most 3 in each channel. -/
theorem wheel_closed_cycle (position : Nat) (h : position < 256) :
    (channels (wheel position)).1 + (channels (wheel position)).2.1
        + (channels (wheel position)).2.2 = 255
    ∧ ((channels (wheel position)).1 = 0 ∨ (channels (wheel position)).2.1 = 0
        ∨ (channels (wheel position)).2.2 = 0)
    ∧ wheel 0 = wheel 255 ∧ channels (wheel 0) = (255, 0, 0)
    ∧ channels (wheel 255) = (255, 0, 0)
    ∧ (channels (wheel position)).1 ≤ (channels (wheel ((position + 1) % 256))).1 + 3
    ∧ (channels (wheel ((position + 1) % 256))).1 ≤ (channels (wheel position)).1 + 3
    ∧ (channels (wheel position)).2.1 ≤ (channels (wheel ((position + 1) % 256))).2.1 + 3
    ∧ (channels (wheel ((position + 1) % 256))).2.1 ≤ (channels (wheel position)).2.1 + 3
    ∧ (channels (wheel position)).2.2 ≤ (channels (wheel ((position + 1) % 256))).2.2 + 3
    ∧ (channels (wheel ((position + 1) % 256))).2.2 ≤ (channels (wheel position)).2.2 + 3 := by
  obtain ⟨a, b⟩ := wheel_sums position h
  exact ⟨a, b, by decide, by decide, by decide, wheel_steps position h⟩

/-- C20 at position 84, the last position before a segment boundary. -/
theorem wheel_closed_cycle_witness :
    (channels (wheel 84)).1 + (channels (wheel 84)).2.1 + (channels (wheel 84)).2.2 = 255 :=
  (wheel_closed_cycle 84 (by decide)).1

/-! ## C17: the pixels of a rainbow frame -/

theorem setPixelColor_pixels (i c : Nat) (s : Strip) (h : i < LED_COUNT) :
    (s.setPixelColor i c).pixels = s.pixels.set i c
    ∧ (s.setPixelColor i c).brightness = s.brightness := by
  unfold Strip.setPixelColor
  rw [if_pos (by simpa [Strip.numPixels] using h)]
  exact ⟨rfl, rfl⟩

theorem foldl_setPixelColor_front (f : Nat → Nat) (k : Nat) (s : Strip)
    (hk : k ≤ LED_COUNT) (hlen : s.pixels.length = LED_COUNT) :
    ((List.range k).foldl (fun s i => s.setPixelColor i (f i)) s).pixels
      = (List.range k).map f ++ s.pixels.drop k := by
  induction k with
  | zero => simp
  | succ k ih =>
    have hk' : k < LED_COUNT := hk
    rw [List.range_succ, List.foldl_append, List.foldl_cons, List.foldl_nil,
      (setPixelColor_pixels k (f k) _ hk').1, ih (Nat.le_of_lt hk'), List.map_append]
    have hl : ((List.range k).map f).length = k := by simp
    have hd : s.pixels.drop k = s.pixels[k] :: s.pixels.drop (k + 1) := by
      rw [List.drop_eq_getElem_cons (by omega)]
    rw [List.set_append_right _ _ (by simp)]
    simp only [hl, Nat.sub_self, List.append_assoc, List.map_cons, List.map_nil,
      List.cons_append, List.nil_append]
    congr 1
    conv_lhs => rw [hd]
    rfl

theorem foldl_setPixelColor_all (f : Nat → Nat) (s : Strip)
    (hlen : s.pixels.length = LED_COUNT) :
    ((List.range LED_COUNT).foldl (fun s i => s.setPixelColor i (f i)) s).pixels
      = (List.range LED_COUNT).map f := by
  rw [foldl_setPixelColor_front f LED_COUNT s (Nat.le_refl _) hlen, ← hlen]
  simp

theorem colorIndex_eq (i offset : Nat) (h : i < LED_COUNT) :
    (i * 256 % 65536 / LED_COUNT + offset) % 65536 % 256 = (i * 256 / 30 + offset) % 256 := by
  unfold LED_COUNT at *
  have h1 : i * 256 % 65536 = i * 256 := Nat.mod_eq_of_lt (by omega)
  rw [h1, Nat.mod_mod_of_dvd _ (by norm_num : 256 ∣ 65536)]

theorem updateRainbow_strip (now : Nat) (w : World)
    (hlen : w.strip.pixels.length = LED_COUNT)
    (hdue : ¬ usub32 now w.lastRainbowUpdate < RAINBOW_INTERVAL_MS) :
    (updateRainbow now w).strip
      = { pixels := (List.range 30).map (fun i => wheel ((i * 256 / 30 + w.rainbowOffset) % 256)),
          brightness := w.currentBrightness,
          shown := w.strip.shown ++
            [((List.range 30).map (fun i => wheel ((i * 256 / 30 + w.rainbowOffset) % 256)),
              w.currentBrightness)] } := by
  simp only [updateRainbow, hdue, if_false, Strip.numPixels]
  have hp := foldl_setPixelColor_all
    (fun i => wheel ((i * 256 % 65536 / LED_COUNT + w.rainbowOffset) % 65536 % 256)) w.strip hlen
  have hs := foldl_setPixelColor_shown
    (fun _ i => wheel ((i * 256 % 65536 / LED_COUNT + w.rainbowOffset) % 65536 % 256))
    (List.range LED_COUNT) w.strip
  have hm : (List.range LED_COUNT).map
        (fun i => wheel ((i * 256 % 65536 / LED_COUNT + w.rainbowOffset) % 65536 % 256))
      = (List.range 30).map (fun i => wheel ((i * 256 / 30 + w.rainbowOffset) % 256)) := by
    apply List.map_congr_left
    intro i hi
    rw [colorIndex_eq i _ (List.mem_range.mp hi)]
  rw [hm] at hp
  simp only [Strip.show, Strip.setBrightness, hp, hs.1]

/-- C17: when `updateRainbow` renders a frame with the strip of 30 pixels and the phase
`rainbowOffset`, every pixel `i` below 30 is assigned `wheel ((i * 256 / 30 + phase) % 256)`
with the division of the natural numbers, `i * 256` stays below `2 ^ 16`, and the frame is
shown with the strip brightness set to `currentBrightness`. -/
theorem rainbow_frame_pixels (w : World) (now : Nat)
    (hlen : w.strip.pixels.length = LED_COUNT)
    (hdue : ¬ usub32 now w.lastRainbowUpdate < RAINBOW_INTERVAL_MS) :
    LED_COUNT = 30
    ∧ (∀ i, i < 30 → (updateRainbow now w).strip.pixels[i]?
        = some (wheel ((i * 256 / 30 + w.rainbowOffset) % 256)))
    ∧ (updateRainbow now w).strip.pixels.length = 30
    ∧ (∀ i, i < 30 → i * 256 < 2 ^ 16)
    ∧ (updateRainbow now w).strip.brightness = w.currentBrightness
    ∧ (updateRainbow now w).strip.shown
        = w.strip.shown ++ [((updateRainbow now w).strip.pixels, w.currentBrightness)] := by
  rw [updateRainbow_strip now w hlen hdue]
  refine ⟨rfl, fun i hi => ?_, by simp, fun i hi => by omega, rfl, rfl⟩
  simp [List.getElem?_map, List.getElem?_range hi]

/-- C17 at the first tick, at 1000 ms, after `RAINBOW`: pixel 7 gets `wheel 59`. -/
theorem rainbow_frame_pixels_witness :
    (updateRainbow 1000 (startRainbow World.initial)).strip.pixels[7]? = some (wheel 59) :=
  (rainbow_frame_pixels (startRainbow World.initial) 1000 (by decide) (by decide)).2.1 7
    (by decide)

/-! ## C18: `BRIGHT` changes the brightness only -/

theorem dispatch_bright_bare (w : World) :
    dispatch ['B', 'R', 'I', 'G', 'H', 'T'] w = (['E', 'R', 'R'], println Channel.serial
      ['U', 'n', 'k', 'n', 'o', 'w', 'n', ' ', 'c', 'o', 'm', 'm', 'a', 'n', 'd', '.'] w) := by
  simp [dispatch, equalsIgnoreCase, startsWith, tolower]

theorem trim_bright (rest : List Char) :
    trim (['B', 'R', 'I', 'G', 'H', 'T', ' '] ++ rest) = ['B', 'R', 'I', 'G', 'H', 'T']
    ∨ ∃ x, x ≠ [] ∧ trim (['B', 'R', 'I', 'G', 'H', 'T', ' '] ++ rest)
        = ['B', 'R', 'I', 'G', 'H', 'T', ' '] ++ x := by
  have h1 : (['B', 'R', 'I', 'G', 'H', 'T', ' '] ++ rest).dropWhile isspace
      = ['B', 'R', 'I', 'G', 'H', 'T', ' '] ++ rest := by
    simp [List.dropWhile, isspace]
  have e : (['B', 'R', 'I', 'G', 'H', 'T', ' '] ++ rest).reverse
      = rest.reverse ++ [' ', 'T', 'H', 'G', 'I', 'R', 'B'] := by
    simp
  unfold trim
  rw [h1, e, List.dropWhile_append]
  split
  · left
    simp [List.dropWhile, isspace]
  · rename_i hne
    right
    refine ⟨(rest.reverse.dropWhile isspace).reverse, ?_, by simp⟩
    intro h
    apply hne
    simpa using h

/-- C18: for every state and every line that starts with `BRIGHT `, `handleCommand` leaves
the mode, the static colour, the rainbow phase and the last-frame timestamp as they were, in
`Static` mode and in `Rainbow` mode alike. -/
theorem bright_keeps_rest (w : World) (rest : List Char) (rs : Option Channel) :
    (handleCommand (['B', 'R', 'I', 'G', 'H', 'T', ' '] ++ rest) rs w).currentMode
        = w.currentMode
    ∧ (handleCommand (['B', 'R', 'I', 'G', 'H', 'T', ' '] ++ rest) rs w).staticColor
        = w.staticColor
    ∧ (handleCommand (['B', 'R', 'I', 'G', 'H', 'T', ' '] ++ rest) rs w).rainbowOffset
        = w.rainbowOffset
    ∧ (handleCommand (['B', 'R', 'I', 'G', 'H', 'T', ' '] ++ rest) rs w).lastRainbowUpdate
        = w.lastRainbowUpdate := by
  have key : ∃ b, (handleCommand (['B', 'R', 'I', 'G', 'H', 'T', ' '] ++ rest) rs w).display
      = (w.currentMode, w.staticColor, b, w.rainbowOffset, w.lastRainbowUpdate) := by
    rcases trim_bright rest with h | ⟨x, hx, h⟩
    · refine ⟨w.currentBrightness, ?_⟩
      rw [handleCommand_eq _ _ _ (by rw [h]; simp), h, dispatch_bright_bare, respond_display,
        println_display, received_display]
      rfl
    · refine ⟨toUint8 (constrain (toInt x) 0 255), ?_⟩
      rw [handleCommand_eq _ _ _ (by rw [h]; simp), h, respond_display,
        dispatch_bright_display _ hx]
      rfl
  obtain ⟨b, hb⟩ := key
  exact ⟨congrArg (fun d => d.1) hb, congrArg (fun d => d.2.1) hb,
    congrArg (fun d => d.2.2.2.1) hb, congrArg (fun d => d.2.2.2.2) hb⟩

/-! ## C19: the framer is independent of how the bytes are split -/

theorem pollStreamWith_append {σ : Type} (handle : List Char → σ → σ) (a b : List Char)
    (buffer : List Char) (w : σ) :
    pollStreamWith handle (a ++ b) buffer w
      = pollStreamWith handle b (pollStreamWith handle a buffer w).1
          (pollStreamWith handle a buffer w).2 := by
  induction a generalizing buffer w with
  | nil => rfl
  | cons c cs ih =>
    simp only [List.cons_append, pollStreamWith]
    split
    · exact ih _ _
    · split
      · split
        · exact ih _ _
        · exact ih _ _
      · exact ih _ _

theorem pollStreamWith_filter {σ : Type} (handle : List Char → σ → σ) (bytes : List Char)
    (buffer : List Char) (w : σ) :
    pollStreamWith handle (bytes.filter (fun c => c != '\r')) buffer w
      = pollStreamWith handle bytes buffer w := by
  induction bytes generalizing buffer w with
  | nil => rfl
  | cons c cs ih =>
    by_cases hr : c = '\r'
    · subst hr
      have hn : ¬ ('\r' = '\n') := by decide
      simp only [List.filter, bne_self_eq_false, pollStreamWith, hn, if_false, ne_eq,
        not_true_eq_false]
      exact ih _ _
    · have hf : (c != '\r') = true := by simpa using hr
      simp only [List.filter, hf, pollStreamWith, hr, ne_eq, not_false_eq_true, if_true]
      split
      · exact ih _ _
      · split
        · exact ih _ _
        · exact ih _ _

/-- C19: for every line handler, and so for `handleCommand`, polling `a ++ b` in one call
gives the same buffer and the same state (the same calls of the handler in the same order)
as polling `a` and then `b`; removing the `\r` bytes does not change the result; and a `\n`
hands the current buffer, empty or not, to the handler and resets it. -/
theorem pollStream_split (a b bytes buffer : List Char) :
    (∀ (σ : Type) (handle : List Char → σ → σ) (w : σ),
      pollStreamWith handle (a ++ b) buffer w
        = pollStreamWith handle b (pollStreamWith handle a buffer w).1
            (pollStreamWith handle a buffer w).2
      ∧ pollStreamWith handle (bytes.filter (fun c => c != '\r')) buffer w
        = pollStreamWith handle bytes buffer w
      ∧ pollStreamWith handle ('\n' :: bytes) buffer w
        = pollStreamWith handle bytes [] (handle buffer w))
    ∧ (∀ (rs : Option Channel) (w : World),
      pollStream (a ++ b) buffer rs w
        = pollStream b (pollStream a buffer rs w).1 rs (pollStream a buffer rs w).2
      ∧ pollStream (bytes.filter (fun c => c != '\r')) buffer rs w
        = pollStream bytes buffer rs w
      ∧ pollStream ('\n' :: bytes) buffer rs w
        = pollStream bytes [] rs (handleCommand buffer rs w)) := by
  have key : ∀ (σ : Type) (handle : List Char → σ → σ) (w : σ),
      pollStreamWith handle (a ++ b) buffer w
        = pollStreamWith handle b (pollStreamWith handle a buffer w).1
            (pollStreamWith handle a buffer w).2
      ∧ pollStreamWith handle (bytes.filter (fun c => c != '\r')) buffer w
        = pollStreamWith handle bytes buffer w
      ∧ pollStreamWith handle ('\n' :: bytes) buffer w
        = pollStreamWith handle bytes [] (handle buffer w) := by
    intro σ handle w
    refine ⟨pollStreamWith_append handle a b buffer w,
      pollStreamWith_filter handle bytes buffer w, ?_⟩
    simp [pollStreamWith]
  exact ⟨key, fun rs w => key World (fun line => handleCommand line rs) w⟩

end PoliceLed
